import Mathlib

/-!
# PFC-Platform browser utilities: image optimizer and team PIN store

A shallow embedding of `static/js/image_optimizer.js` (class `ImageOptimizer`) and of
`static/js/team_pin_autofill.js` (object `TeamPinManager`), with the properties of the
specification stated and proved over it.

JavaScript numbers are IEEE-754 binary64 values.  Finite values are represented here by
the rational they denote.  Every arithmetic operation of `calculateDimensions` is followed
by an explicit rounding function `fl`, so that the same definition can be read with
`fl = unrounded` (real arithmetic, as the specification writes it) and with `fl = binary64`
(round to nearest, ties to even, as the engine computes it).  The properties of
`calculateDimensions` are proved for both readings: in real arithmetic for all positive
inputs, in binary64 arithmetic for natural dimensions below `2 ^ 32`, the range of the
attributes `width` and `height` of an image element.
-/

namespace PFC

/-! ## JavaScript numbers -/

/-- Nearest integer to `r`; when `r` lies half way between two integers the even one. -/
def roundTiesToEven (r : ℚ) : ℤ :=
  let f := ⌊r⌋
  if r - f < 1 / 2 then f
  else if 1 / 2 < r - f then f + 1
  else if f % 2 = 0 then f else f + 1

/-- Binary64 value delivered for the exact result `x`: 53 significant bits, least normal
exponent `-1022` (smaller magnitudes are rounded on the subnormal grid `2 ^ (-1074)`),
round to nearest with ties to even.  Overflow to `Infinity` (magnitudes from `2 ^ 1024`)
is not represented; no theorem below lets a value reach that range. -/
def binary64 (x : ℚ) : ℚ :=
  let e : ℤ := max (Int.log 2 |x|) (-1022)
  roundTiesToEven (x / 2 ^ (e - 52)) * 2 ^ (e - 52)

/-- Real arithmetic: the exact result is kept. -/
def unrounded (x : ℚ) : ℚ := x

/-- Accuracy of a rounding function: on the normal range (from `2 ^ (-1022)`) its relative
error is at most `2 ^ (-53)`, half a unit in the last place of a 53-bit significand. -/
def HalfUlp (fl : ℚ → ℚ) : Prop :=
  ∀ x : ℚ, (2 : ℚ) ^ (-1022 : ℤ) ≤ x → |fl x - x| ≤ x / 2 ^ 53

/-- JavaScript `Math.round`: the nearest integer, a tie going towards `+∞`. -/
def mathRound (x : ℚ) : ℤ := ⌊x + 1 / 2⌋

/-- JavaScript `a || d` on an optional number: `undefined` and `0` are falsy. -/
def orDefault {α : Type} [Zero α] [DecidableEq α] (a : Option α) (d : α) : α :=
  match a with
  | some v => if v = 0 then d else v
  | none => d

/-! ## `ImageOptimizer` -/

/-- Argument of the `ImageOptimizer` constructor; an absent field is `undefined`. -/
structure Options where
  maxWidth : Option ℕ := none
  maxHeight : Option ℕ := none
  quality : Option ℚ := none
  maxSizeMB : Option ℚ := none

/-- Fields of an `ImageOptimizer` instance. -/
structure ImageOptimizer where
  maxWidth : ℕ
  maxHeight : ℕ
  quality : ℚ
  maxSizeMB : ℚ

/-- Result `{ width, height }` of `calculateDimensions`. -/
structure Dimensions where
  width : ℤ
  height : ℤ
deriving DecidableEq

namespace ImageOptimizer

/-- The constructor `constructor(options = {})`.  A decimal literal such as `0.85` denotes
the binary64 value nearest to it. -/
def new (options : Options) : ImageOptimizer where
  maxWidth := orDefault options.maxWidth 1200
  maxHeight := orDefault options.maxHeight 800
  quality := orDefault options.quality (binary64 (85 / 100))
  maxSizeMB := orDefault options.maxSizeMB 5

/-- The method `calculateDimensions(originalWidth, originalHeight)`.  The natural
dimensions of a decoded image are unsigned integers.  Inside the resize branch a zero
dimension would make JavaScript divide by zero (`Infinity`); the theorems about that
branch take both dimensions positive. -/
def calculateDimensions (fl : ℚ → ℚ) (self : ImageOptimizer)
    (originalWidth originalHeight : ℕ) : Dimensions :=
  let width := originalWidth
  let height := originalHeight
  if self.maxWidth < width ∨ self.maxHeight < height then
    let widthRatio := fl ((self.maxWidth : ℚ) / width)
    let heightRatio := fl ((self.maxHeight : ℚ) / height)
    let scale := min widthRatio heightRatio
    { width := mathRound (fl (width * scale))
      height := mathRound (fl (height * scale)) }
  else
    { width := width, height := height }

/-- The value of the local constant `scale` of `calculateDimensions` in its resize branch:
`Math.min(widthRatio, heightRatio)`. -/
def scale (fl : ℚ → ℚ) (self : ImageOptimizer) (width height : ℕ) : ℚ :=
  min (fl ((self.maxWidth : ℚ) / width)) (fl ((self.maxHeight : ℚ) / height))

end ImageOptimizer

/-- The preset `profilePictureOptimizer`. -/
def profilePictureOptimizer : ImageOptimizer :=
  ImageOptimizer.new { maxWidth := some 300, maxHeight := some 300,
                       quality := some (binary64 (9 / 10)), maxSizeMB := some 3 }

/-- The preset `teamLogoOptimizer`. -/
def teamLogoOptimizer : ImageOptimizer :=
  ImageOptimizer.new { maxWidth := some 400, maxHeight := some 400,
                       quality := some (binary64 (95 / 100)), maxSizeMB := some 2 }

/-- The preset `teamPhotoOptimizer`. -/
def teamPhotoOptimizer : ImageOptimizer :=
  ImageOptimizer.new { maxWidth := some 1200, maxHeight := some 800,
                       quality := some (binary64 (85 / 100)), maxSizeMB := some 5 }

/-! ## Files and the host environment -/

/-- JavaScript `s.startsWith(p)`.  Strings are compared character by character; for the
ASCII pattern used by the source this agrees with the comparison of UTF-16 code units. -/
def startsWith (s p : String) : Bool := p.toList.isPrefixOf s.toList

/-- A `Blob` of the File API: its media type and its content, a sequence of bytes. -/
structure Blob where
  type : String
  bytes : List ℕ
deriving DecidableEq

/-- The attribute `size` of a `Blob`: its length in bytes. -/
def Blob.size (blob : Blob) : ℕ := blob.bytes.length

/-- A `File` of the File API, with the attributes the optimizer reads or writes. -/
structure File where
  name : String
  type : String
  lastModified : ℕ
  bytes : List ℕ
deriving DecidableEq

/-- The attribute `size` of a `File`: its length in bytes. -/
def File.size (file : File) : ℕ := file.bytes.length

/-- Errors with which the promise of `optimizeImage` is rejected. -/
inductive OptimizeError where
  /-- `'File size must be less than ' + maxSizeMB + 'MB'` -/
  | fileTooLarge (maxSizeMB : ℚ)
  /-- `'File must be an image'` -/
  | notAnImage
  /-- `'Failed to optimize image'`: the encoder handed `null` to the `toBlob` callback. -/
  | encodeFailed
  /-- `'Failed to load image'`: the `error` event of the image element. -/
  | loadFailed
deriving DecidableEq

/-- Event the browser delivers to the image element once `img.src` is set. -/
inductive LoadEvent where
  /-- `onload`, with the natural size `img.width`, `img.height` of the decoded image. -/
  | load (width height : ℕ)
  /-- `onerror`. -/
  | error
  /-- Neither handler is ever called. -/
  | never
deriving DecidableEq

/-- What `canvas.toBlob` does with its callback. -/
inductive EncodeEvent where
  /-- The callback receives a blob. -/
  | blob (blob : Blob)
  /-- The callback receives `null`. -/
  | null
  /-- The callback is never called. -/
  | never
deriving DecidableEq

/-- The host environment as seen by one call of `optimizeImage`. -/
structure Host where
  /-- Decoder: what happens after `img.src = URL.createObjectURL(file)`. -/
  imageEvent : File → LoadEvent
  /-- Encoder: what `canvas.toBlob(callback, 'image/jpeg', quality)` does for the image
  drawn on a canvas of the given size, at the given quality. -/
  toBlob : File → Dimensions → ℚ → EncodeEvent
  /-- `Date.now()` at the time the result is wrapped. -/
  now : ℕ

/-- Calls into the host made by `optimizeImage`, in program order. -/
inductive HostCall where
  /-- `document.createElement('canvas')` -/
  | createCanvas
  /-- `canvas.getContext('2d')` -/
  | getContext
  /-- `new Image()` -/
  | newImage
  /-- `URL.createObjectURL(file)`, assigned to `img.src`: the decode request. -/
  | createObjectURL (file : File)
  /-- `ctx.drawImage(img, 0, 0, width, height)` on the canvas resized to `d`. -/
  | drawImage (d : Dimensions)
  /-- `canvas.toBlob(callback, 'image/jpeg', quality)`: the encode request. -/
  | toBlob (quality : ℚ)
  /-- `Date.now()` -/
  | dateNow
  /-- `new File([blob], name, { type: 'image/jpeg', lastModified })` -/
  | newFile (name : String)
deriving DecidableEq

/-- State in which the promise returned by `optimizeImage` ends. -/
inductive Outcome where
  /-- `resolve(file)` was called. -/
  | resolved (file : File)
  /-- `reject(error)` was called. -/
  | rejected (error : OptimizeError)
  /-- Neither was called: the promise stays pending. -/
  | pending
deriving DecidableEq

/-- Result of running `optimizeImage`: the promise outcome and the host calls made. -/
structure Run where
  outcome : Outcome
  calls : List HostCall
deriving DecidableEq

namespace ImageOptimizer

/-- The method `optimizeImage(file)`: the state in which the returned promise ends and
the calls made into the host.  The product `maxSizeMB * 1024 * 1024` is kept exact:
multiplying a binary64 value by a power of two only changes its exponent.  The canvas is
taken to provide a 2d context. -/
def optimizeImage (fl : ℚ → ℚ) (self : ImageOptimizer) (host : Host) (file : File) : Run :=
  if (file.size : ℚ) > self.maxSizeMB * 1024 * 1024 then
    { outcome := .rejected (.fileTooLarge self.maxSizeMB), calls := [] }
  else if !startsWith file.type "image/" then
    { outcome := .rejected .notAnImage, calls := [] }
  else if file.type = "image/svg+xml" then
    { outcome := .resolved file, calls := [] }
  else
    let setup := [HostCall.createCanvas, .getContext, .newImage, .createObjectURL file]
    match host.imageEvent file with
    | .load width height =>
      let d := calculateDimensions fl self width height
      match host.toBlob file d self.quality with
      | .blob blob =>
        { outcome := .resolved
            { name := file.name, type := "image/jpeg", lastModified := host.now,
              bytes := blob.bytes }
          calls := setup ++ [.drawImage d, .toBlob self.quality, .dateNow, .newFile file.name] }
      | .null =>
        { outcome := .rejected .encodeFailed
          calls := setup ++ [.drawImage d, .toBlob self.quality] }
      | .never =>
        { outcome := .pending
          calls := setup ++ [.drawImage d, .toBlob self.quality] }
    | .error => { outcome := .rejected .loadFailed, calls := setup }
    | .never => { outcome := .pending, calls := setup }

end ImageOptimizer

/-- A host whose decoder reports a `100 x 100` image and whose encoder produces a JPEG of
2000 bytes. -/
def inflatingHost : Host where
  imageEvent := fun _ => .load 100 100
  toBlob := fun _ _ _ => .blob { type := "image/jpeg", bytes := List.replicate 2000 0 }
  now := 0

/-- A PNG file of 1000 bytes. -/
def smallPng : File :=
  { name := "dot.png", type := "image/png", lastModified := 0, bytes := List.replicate 1000 0 }

/-- An SVG file of 1000 bytes. -/
def smallSvg : File :=
  { name := "logo.svg", type := "image/svg+xml", lastModified := 0,
    bytes := List.replicate 1000 0 }

/-- A plain-text file of 1000 bytes. -/
def smallText : File :=
  { name := "notes.txt", type := "text/plain", lastModified := 0,
    bytes := List.replicate 1000 0 }

/-! ## `TeamPinManager` -/

/-- The constant `STORAGE_KEY`. -/
def STORAGE_KEY : String := "pfc_team_pin"

/-- The browser state `TeamPinManager` acts on: `localStorage` and the console log. -/
structure Browser where
  localStorage : String → Option String
  console : List String

/-- `localStorage.setItem(key, value)`.  The store is a total map from keys to optional
values; a storage quota is not represented. -/
def setItem (store : String → Option String) (key value : String) : String → Option String :=
  fun k => if k = key then some value else store k

/-- `localStorage.removeItem(key)`. -/
def removeItem (store : String → Option String) (key : String) : String → Option String :=
  fun k => if k = key then none else store k

/-- JavaScript `s.length`: the number of UTF-16 code units, two for a character outside
the basic multilingual plane. -/
def jsLength (s : String) : ℕ :=
  (s.toList.map fun c => if c.toNat < 65536 then 1 else 2).sum

/-- The character class `[A-Za-z0-9]`. -/
def isAlphanumeric (c : Char) : Bool :=
  ('A' ≤ c && c ≤ 'Z') || ('a' ≤ c && c ≤ 'z') || ('0' ≤ c && c ≤ '9')

/-- The test `/^[A-Za-z0-9]+$/.test(s)`: one or more characters, all in the class, from
the start of the input to its end. -/
def testAlphanumeric (s : String) : Bool :=
  !s.toList.isEmpty && s.toList.all isAlphanumeric

namespace TeamPinManager

/-- The method `isValidPin(pin)` on a string, as the truth value of
`pin && pin.length === 6 && /^[A-Za-z0-9]+$/.test(pin)` (the empty string is falsy). -/
def isValidPin (pin : String) : Bool :=
  !pin.toList.isEmpty && jsLength pin == 6 && testAlphanumeric pin

/-- The method `savePin(pin)`: the returned boolean and the browser state afterwards. -/
def savePin (b : Browser) (pin : String) : Bool × Browser :=
  if isValidPin pin then
    (true, { localStorage := setItem b.localStorage STORAGE_KEY pin
             console := b.console ++ ["Team PIN saved for auto-fill"] })
  else
    (false, b)

/-- The method `getPin()`. -/
def getPin (b : Browser) : Option String := b.localStorage STORAGE_KEY

/-- The method `clearPin()`. -/
def clearPin (b : Browser) : Browser :=
  { localStorage := removeItem b.localStorage STORAGE_KEY
    console := b.console ++ ["Team PIN cleared"] }

end TeamPinManager

/-! ## Rounding -/

/-- `Math.round` of a value below `n + 1 / 2` is at most `n`. -/
theorem mathRound_le_of_lt {x : ℚ} {n : ℤ} (h : x < n + 1 / 2) : mathRound x ≤ n := by
  unfold mathRound
  have : ⌊x + 1 / 2⌋ < n + 1 := by
    rw [Int.floor_lt]
    push_cast
    linarith
  omega

/-- `Math.round` of a value from `n - 1 / 2` on is at least `n`. -/
theorem le_mathRound_of_le {x : ℚ} {n : ℤ} (h : (n : ℚ) - 1 / 2 ≤ x) : n ≤ mathRound x := by
  unfold mathRound
  rw [Int.le_floor]
  linarith

/-- Evaluation of `Math.round` at a value within its half-open unit interval. -/
theorem mathRound_eq_of_mem {x : ℚ} {n : ℤ} (h1 : (n : ℚ) - 1 / 2 ≤ x) (h2 : x < n + 1 / 2) :
    mathRound x = n :=
  le_antisymm (mathRound_le_of_lt h2) (le_mathRound_of_le h1)

/-- `Math.round` exceeds its argument by at most one half. -/
theorem mathRound_sub_le (x : ℚ) : (mathRound x : ℚ) - x ≤ 1 / 2 := by
  unfold mathRound
  have := Int.floor_le (x + 1 / 2)
  linarith

/-- `Math.round` falls short of its argument by at most one half. -/
theorem sub_mathRound_le (x : ℚ) : x - (mathRound x : ℚ) ≤ 1 / 2 := by
  unfold mathRound
  have := Int.lt_floor_add_one (x + 1 / 2)
  linarith

/-- Rounding to the nearest integer moves a value by at most one half. -/
theorem roundTiesToEven_error (r : ℚ) : |(roundTiesToEven r : ℚ) - r| ≤ 1 / 2 := by
  have h1 := Int.floor_le r
  have h2 := Int.lt_floor_add_one r
  unfold roundTiesToEven
  rw [abs_le]
  simp only
  split_ifs <;> push_cast <;> constructor <;> linarith

/-- A rational within less than one half of an integer rounds to that integer. -/
theorem roundTiesToEven_eq_of_abs_lt {r : ℚ} {m : ℤ} (h : |r - m| < 1 / 2) :
    roundTiesToEven r = m := by
  rw [abs_lt] at h
  obtain ⟨h1, h2⟩ := h
  unfold roundTiesToEven
  simp only
  rcases le_or_lt (m : ℚ) r with hle | hlt
  · have hf : ⌊r⌋ = m := by
      rw [Int.floor_eq_iff]
      constructor <;> linarith
    rw [hf, if_pos (by linarith)]
  · have hf : ⌊r⌋ = m - 1 := by
      rw [Int.floor_eq_iff]
      push_cast
      constructor <;> linarith
    rw [hf]
    push_cast
    rw [if_neg (by linarith), if_pos (by linarith)]
    ring

/-- In the normal range the exponent used by `binary64` is the binary logarithm. -/
theorem binary64_exponent {x : ℚ} (hx : (2 : ℚ) ^ (-1022 : ℤ) ≤ x) :
    max (Int.log 2 |x|) (-1022) = Int.log 2 x := by
  have hpos : (0 : ℚ) < x := lt_of_lt_of_le (by positivity) hx
  rw [abs_of_pos hpos]
  apply max_eq_left
  have := (Int.zpow_le_iff_le_log (R := ℚ) (b := 2) (by norm_num) hpos (x := -1022)).1
  exact this (by exact_mod_cast hx)

/-- Evaluation of `binary64` at a value whose binade `[2 ^ e, 2 ^ (e + 1))` is known. -/
theorem binary64_eq_of_binade {x : ℚ} {e m : ℤ} (he : -1022 ≤ e) (h1 : (2 : ℚ) ^ e ≤ x)
    (h2 : x < 2 ^ (e + 1)) (hm : |x / 2 ^ (e - 52) - m| < 1 / 2) :
    binary64 x = m * 2 ^ (e - 52) := by
  have hpos : (0 : ℚ) < x := lt_of_lt_of_le (by positivity) h1
  have hlog : Int.log 2 x = e := by
    apply le_antisymm
    · have := (Int.lt_zpow_iff_log_lt (R := ℚ) (b := 2) (by norm_num) hpos (x := e + 1)).1
        (by exact_mod_cast h2)
      omega
    · exact (Int.zpow_le_iff_le_log (R := ℚ) (b := 2) (by norm_num) hpos).1 (by exact_mod_cast h1)
  unfold binary64
  simp only
  rw [abs_of_pos hpos, hlog, max_eq_left he, roundTiesToEven_eq_of_abs_lt hm]

/-- Binary64 rounding is accurate to half a unit in the last place. -/
theorem halfUlp_binary64 : HalfUlp binary64 := by
  intro x hx
  have hpos : (0 : ℚ) < x := lt_of_lt_of_le (by positivity) hx
  unfold binary64
  simp only
  rw [binary64_exponent hx]
  set e := Int.log 2 x with he
  have hp : (0 : ℚ) < 2 ^ (e - 52) := by positivity
  have hlow : (2 : ℚ) ^ e ≤ x := by
    have := Int.zpow_log_le_self (R := ℚ) (b := 2) (by norm_num) hpos
    exact_mod_cast this
  have herr := roundTiesToEven_error (x / 2 ^ (e - 52))
  have hsplit : (roundTiesToEven (x / 2 ^ (e - 52)) : ℚ) * 2 ^ (e - 52) - x
      = ((roundTiesToEven (x / 2 ^ (e - 52)) : ℚ) - x / 2 ^ (e - 52)) * 2 ^ (e - 52) := by
    field_simp
  rw [hsplit, abs_mul, abs_of_pos hp]
  have hpow : (2 : ℚ) ^ (e - 52) = 2 ^ e / 2 ^ 52 := by
    rw [zpow_sub₀ (by norm_num)]
    norm_num
  calc |(roundTiesToEven (x / 2 ^ (e - 52)) : ℚ) - x / 2 ^ (e - 52)| * 2 ^ (e - 52)
      ≤ 1 / 2 * 2 ^ (e - 52) := by gcongr
    _ = 2 ^ e / 2 ^ 53 := by rw [hpow]; ring
    _ ≤ x / 2 ^ 53 := by gcongr

/-- Keeping the exact result is accurate to half a unit in the last place. -/
theorem halfUlp_unrounded : HalfUlp unrounded := by
  intro x hx
  have hpos : (0 : ℚ) < x := lt_of_lt_of_le (by positivity) hx
  simp only [unrounded, sub_self, abs_zero]
  positivity

/-! ## Consequences of the accuracy bound -/

/-- Two-sided form of the error bound, for a value known to be at least `2 ^ (-64)`. -/
theorem HalfUlp.bounds {fl : ℚ → ℚ} (hfl : HalfUlp fl) {x : ℚ} (hx : 1 / 2 ^ 64 ≤ x) :
    x * (1 - 1 / 2 ^ 53) ≤ fl x ∧ fl x ≤ x * (1 + 1 / 2 ^ 53) := by
  have h := hfl x (le_trans (by norm_num) hx)
  rw [abs_le] at h
  constructor <;> linarith [h.1, h.2]

/-- The rounded ratio `fl (M / d)` of a bound to a dimension below `2 ^ 32`. -/
theorem HalfUlp.ratio_bounds {fl : ℚ → ℚ} (hfl : HalfUlp fl) {M d : ℕ}
    (hM : 0 < M) (hd : 0 < d) (hd32 : d < 2 ^ 32) :
    (M : ℚ) / d * (1 - 1 / 2 ^ 53) ≤ fl ((M : ℚ) / d) ∧
      fl ((M : ℚ) / d) ≤ (M : ℚ) / d * (1 + 1 / 2 ^ 53) ∧ (1 : ℚ) / 2 ^ 32 ≤ (M : ℚ) / d := by
  have hdq : (0 : ℚ) < d := by exact_mod_cast hd
  have hMq : (1 : ℚ) ≤ M := by exact_mod_cast hM
  have hd32q : (d : ℚ) ≤ 2 ^ 32 := by exact_mod_cast hd32.le
  have hlow : (1 : ℚ) / 2 ^ 32 ≤ (M : ℚ) / d := by
    rw [div_le_div_iff₀ (by positivity) hdq]
    nlinarith
  have hb := hfl.bounds (le_trans (by norm_num) hlow)
  exact ⟨hb.1, hb.2, hlow⟩

/-- The rounded product `fl (d * s)` of a dimension and a scale factor. -/
theorem HalfUlp.scaled_bounds {fl : ℚ → ℚ} (hfl : HalfUlp fl) {d : ℕ} {s : ℚ}
    (hd : 0 < d) (hs : 1 / 2 ^ 33 ≤ s) :
    (d : ℚ) * s * (1 - 1 / 2 ^ 53) ≤ fl (d * s) ∧ fl (d * s) ≤ (d : ℚ) * s * (1 + 1 / 2 ^ 53) := by
  have hdq : (1 : ℚ) ≤ d := by exact_mod_cast hd
  have hs0 : (0 : ℚ) ≤ s := le_trans (by norm_num) hs
  have : (1 : ℚ) / 2 ^ 64 ≤ d * s := by
    calc (1 : ℚ) / 2 ^ 64 ≤ 1 * (1 / 2 ^ 33) := by norm_num
      _ ≤ d * s := by gcongr
  exact hfl.bounds this

/-- A side scaled by at most `M / d` (up to one rounding) rounds to at most `M`. -/
theorem HalfUlp.round_le_bound {fl : ℚ → ℚ} (hfl : HalfUlp fl) {M d : ℕ} {s : ℚ}
    (hd : 0 < d) (hM32 : M < 2 ^ 32) (hs : 1 / 2 ^ 33 ≤ s)
    (hsM : s ≤ (M : ℚ) / d * (1 + 1 / 2 ^ 53)) : mathRound (fl (d * s)) ≤ M := by
  have hdq : (0 : ℚ) < d := by exact_mod_cast hd
  have hM32q : (M : ℚ) ≤ 2 ^ 32 := by exact_mod_cast hM32.le
  have hMq : (0 : ℚ) ≤ M := by positivity
  have h1 := (hfl.scaled_bounds hd hs).2
  have h2 : (d : ℚ) * s ≤ M * (1 + 1 / 2 ^ 53) := by
    calc (d : ℚ) * s ≤ d * ((M : ℚ) / d * (1 + 1 / 2 ^ 53)) := by gcongr
      _ = M * (1 + 1 / 2 ^ 53) := by field_simp; ring
  have h3 : fl (d * s) ≤ M * (1 + 1 / 2 ^ 53) * (1 + 1 / 2 ^ 53) :=
    le_trans h1 (by gcongr)
  apply mathRound_le_of_lt
  have h4 : (M : ℚ) * (1 + 1 / 2 ^ 53) * (1 + 1 / 2 ^ 53) = M + M * (2 / 2 ^ 53 + 1 / 2 ^ 106) := by
    ring
  have h5 : (M : ℚ) * (2 / 2 ^ 53 + 1 / 2 ^ 106) ≤ 2 ^ 32 * (2 / 2 ^ 53 + 1 / 2 ^ 106) := by
    gcongr
  have h6 : (2 : ℚ) ^ 32 * (2 / 2 ^ 53 + 1 / 2 ^ 106) < 1 / 2 := by norm_num
  push_cast
  linarith

/-- A side scaled by a factor below `1 - 2 ^ (-32)` (up to one rounding) does not grow. -/
theorem HalfUlp.round_le_self {fl : ℚ → ℚ} (hfl : HalfUlp fl) {d : ℕ} {s : ℚ}
    (hd : 0 < d) (hs : 1 / 2 ^ 33 ≤ s)
    (hs1 : s ≤ (1 - 1 / 2 ^ 32) * (1 + 1 / 2 ^ 53)) : mathRound (fl (d * s)) ≤ d := by
  have hdq : (0 : ℚ) < d := by exact_mod_cast hd
  have h1 := (hfl.scaled_bounds hd hs).2
  have h2 : (d : ℚ) * s * (1 + 1 / 2 ^ 53)
      ≤ d * ((1 - 1 / 2 ^ 32) * (1 + 1 / 2 ^ 53)) * (1 + 1 / 2 ^ 53) := by gcongr
  have h3 : (d : ℚ) * ((1 - 1 / 2 ^ 32) * (1 + 1 / 2 ^ 53)) * (1 + 1 / 2 ^ 53)
      = d * ((1 - 1 / 2 ^ 32) * (1 + 1 / 2 ^ 53) * (1 + 1 / 2 ^ 53)) := by ring
  have h4 : ((1 : ℚ) - 1 / 2 ^ 32) * (1 + 1 / 2 ^ 53) * (1 + 1 / 2 ^ 53) ≤ 1 := by norm_num
  have h5 : (d : ℚ) * ((1 - 1 / 2 ^ 32) * (1 + 1 / 2 ^ 53) * (1 + 1 / 2 ^ 53)) ≤ d * 1 := by
    gcongr
  apply mathRound_le_of_lt
  push_cast
  linarith

/-- A bound strictly below a dimension under `2 ^ 32` has ratio at most `1 - 2 ^ (-32)`. -/
theorem ratio_le_of_lt {M d : ℕ} (hMd : M < d) (hd32 : d < 2 ^ 32) :
    (M : ℚ) / d ≤ 1 - 1 / 2 ^ 32 := by
  have hdq : (0 : ℚ) < d := by exact_mod_cast (Nat.zero_lt_of_lt hMd)
  have hd32q : (d : ℚ) ≤ 2 ^ 32 := by exact_mod_cast hd32.le
  have hMq : (M : ℚ) + 1 ≤ d := by exact_mod_cast hMd
  rw [div_le_iff₀ hdq]
  nlinarith

/-! ## `calculateDimensions` -/

namespace ImageOptimizer

/-- Under real arithmetic the scale factor is the minimum of the two exact ratios. -/
theorem scale_unrounded (self : ImageOptimizer) (w h : ℕ) :
    scale unrounded self w h = min ((self.maxWidth : ℚ) / w) ((self.maxHeight : ℚ) / h) := rfl

/-- Value of `calculateDimensions` in the resize branch. -/
theorem calculateDimensions_resize (fl : ℚ → ℚ) (self : ImageOptimizer) (w h : ℕ)
    (hbig : self.maxWidth < w ∨ self.maxHeight < h) :
    calculateDimensions fl self w h =
      { width := mathRound (fl (w * scale fl self w h))
        height := mathRound (fl (h * scale fl self w h)) } := by
  simp only [calculateDimensions, if_pos hbig, scale]

/-- Value of `calculateDimensions` when neither bound is exceeded. -/
theorem calculateDimensions_keep (fl : ℚ → ℚ) (self : ImageOptimizer) (w h : ℕ)
    (hw : w ≤ self.maxWidth) (hh : h ≤ self.maxHeight) :
    calculateDimensions fl self w h = { width := w, height := h } := by
  have : ¬ (self.maxWidth < w ∨ self.maxHeight < h) := by omega
  simp only [calculateDimensions, if_neg this]

/-- Real arithmetic: the scale factor is positive. -/
theorem scale_unrounded_pos (self : ImageOptimizer) {w h : ℕ}
    (hW : 0 < self.maxWidth) (hH : 0 < self.maxHeight) (hw : 0 < w) (hh : 0 < h) :
    0 < scale unrounded self w h := by
  rw [scale_unrounded]
  have h1 : (0 : ℚ) < self.maxWidth := by exact_mod_cast hW
  have h2 : (0 : ℚ) < self.maxHeight := by exact_mod_cast hH
  have h3 : (0 : ℚ) < w := by exact_mod_cast hw
  have h4 : (0 : ℚ) < h := by exact_mod_cast hh
  exact lt_min (div_pos h1 h3) (div_pos h2 h4)

/-- Real arithmetic: the scaled width is at most `maxWidth`. -/
theorem width_scale_unrounded_le (self : ImageOptimizer) {w : ℕ} (h : ℕ) (hw : 0 < w) :
    (w : ℚ) * scale unrounded self w h ≤ self.maxWidth := by
  rw [scale_unrounded]
  have h3 : (0 : ℚ) < w := by exact_mod_cast hw
  calc (w : ℚ) * min ((self.maxWidth : ℚ) / w) ((self.maxHeight : ℚ) / h)
      ≤ w * ((self.maxWidth : ℚ) / w) := by gcongr; exact min_le_left _ _
    _ = self.maxWidth := by field_simp

/-- Real arithmetic: the scaled height is at most `maxHeight`. -/
theorem height_scale_unrounded_le (self : ImageOptimizer) (w : ℕ) {h : ℕ} (hh : 0 < h) :
    (h : ℚ) * scale unrounded self w h ≤ self.maxHeight := by
  rw [scale_unrounded]
  have h3 : (0 : ℚ) < h := by exact_mod_cast hh
  calc (h : ℚ) * min ((self.maxWidth : ℚ) / w) ((self.maxHeight : ℚ) / h)
      ≤ h * ((self.maxHeight : ℚ) / h) := by gcongr; exact min_le_right _ _
    _ = self.maxHeight := by field_simp

/-- Real arithmetic: in the resize branch the scale factor is below one. -/
theorem scale_unrounded_lt_one (self : ImageOptimizer) {w h : ℕ} (hw : 0 < w) (hh : 0 < h)
    (hbig : self.maxWidth < w ∨ self.maxHeight < h) : scale unrounded self w h < 1 := by
  rw [scale_unrounded]
  have h3 : (0 : ℚ) < w := by exact_mod_cast hw
  have h4 : (0 : ℚ) < h := by exact_mod_cast hh
  rcases hbig with hb | hb
  · have : (self.maxWidth : ℚ) < w := by exact_mod_cast hb
    exact lt_of_le_of_lt (min_le_left _ _) ((div_lt_one h3).2 this)
  · have : (self.maxHeight : ℚ) < h := by exact_mod_cast hb
    exact lt_of_le_of_lt (min_le_right _ _) ((div_lt_one h4).2 this)

/-- Rounded arithmetic, dimensions below `2 ^ 32`: the scale factor is at least `2 ^ (-33)`. -/
theorem scale_lower {fl : ℚ → ℚ} (hfl : HalfUlp fl) (self : ImageOptimizer) {w h : ℕ}
    (hW : 0 < self.maxWidth) (hH : 0 < self.maxHeight) (hw : 0 < w) (hh : 0 < h)
    (hw32 : w < 2 ^ 32) (hh32 : h < 2 ^ 32) : 1 / 2 ^ 33 ≤ scale fl self w h := by
  obtain ⟨a1, -, a3⟩ := hfl.ratio_bounds hW hw hw32
  obtain ⟨b1, -, b3⟩ := hfl.ratio_bounds hH hh hh32
  have hu : (0 : ℚ) ≤ 1 - 1 / 2 ^ 53 := by norm_num
  have ha : (1 : ℚ) / 2 ^ 33 ≤ fl ((self.maxWidth : ℚ) / w) := by
    calc (1 : ℚ) / 2 ^ 33 ≤ 1 / 2 ^ 32 * (1 - 1 / 2 ^ 53) := by norm_num
      _ ≤ (self.maxWidth : ℚ) / w * (1 - 1 / 2 ^ 53) := by gcongr
      _ ≤ _ := a1
  have hb : (1 : ℚ) / 2 ^ 33 ≤ fl ((self.maxHeight : ℚ) / h) := by
    calc (1 : ℚ) / 2 ^ 33 ≤ 1 / 2 ^ 32 * (1 - 1 / 2 ^ 53) := by norm_num
      _ ≤ (self.maxHeight : ℚ) / h * (1 - 1 / 2 ^ 53) := by gcongr
      _ ≤ _ := b1
  exact le_min ha hb

/-- Rounded arithmetic, dimensions below `2 ^ 32`: in the resize branch the scale factor
is at most `(1 - 2 ^ (-32)) * (1 + 2 ^ (-53))`, which is below one. -/
theorem scale_upper {fl : ℚ → ℚ} (hfl : HalfUlp fl) (self : ImageOptimizer) {w h : ℕ}
    (hW : 0 < self.maxWidth) (hH : 0 < self.maxHeight) (hw : 0 < w) (hh : 0 < h)
    (hw32 : w < 2 ^ 32) (hh32 : h < 2 ^ 32) (hbig : self.maxWidth < w ∨ self.maxHeight < h) :
    scale fl self w h ≤ (1 - 1 / 2 ^ 32) * (1 + 1 / 2 ^ 53) := by
  obtain ⟨-, a2, -⟩ := hfl.ratio_bounds hW hw hw32
  obtain ⟨-, b2, -⟩ := hfl.ratio_bounds hH hh hh32
  rcases hbig with hb | hb
  · refine le_trans (min_le_left _ _) (le_trans a2 ?_)
    have := ratio_le_of_lt hb hw32
    gcongr
  · refine le_trans (min_le_right _ _) (le_trans b2 ?_)
    have := ratio_le_of_lt hb hh32
    gcongr

/-- Rounded arithmetic, natural dimensions below `2 ^ 32`: the resized sides fit the bounds. -/
theorem resize_fits {fl : ℚ → ℚ} (hfl : HalfUlp fl) (self : ImageOptimizer) {w h : ℕ}
    (hW : 0 < self.maxWidth) (hH : 0 < self.maxHeight) (hw : 0 < w) (hh : 0 < h)
    (hw32 : w < 2 ^ 32) (hh32 : h < 2 ^ 32) (hbig : self.maxWidth < w ∨ self.maxHeight < h) :
    mathRound (fl (w * scale fl self w h)) ≤ self.maxWidth ∧
      mathRound (fl (h * scale fl self w h)) ≤ self.maxHeight := by
  have hlo := scale_lower hfl self hW hH hw hh hw32 hh32
  have hup := scale_upper hfl self hW hH hw hh hw32 hh32 hbig
  obtain ⟨-, a2, -⟩ := hfl.ratio_bounds hW hw hw32
  obtain ⟨-, b2, -⟩ := hfl.ratio_bounds hH hh hh32
  have hsa : scale fl self w h ≤ (self.maxWidth : ℚ) / w * (1 + 1 / 2 ^ 53) :=
    le_trans (min_le_left _ _) a2
  have hsb : scale fl self w h ≤ (self.maxHeight : ℚ) / h * (1 + 1 / 2 ^ 53) :=
    le_trans (min_le_right _ _) b2
  constructor
  · rcases Nat.lt_or_ge self.maxWidth w with hlt | hge
    · exact hfl.round_le_bound hw (lt_trans hlt hw32) hlo hsa
    · exact le_trans (hfl.round_le_self hw hlo hup) (by exact_mod_cast hge)
  · rcases Nat.lt_or_ge self.maxHeight h with hlt | hge
    · exact hfl.round_le_bound hh (lt_trans hlt hh32) hlo hsb
    · exact le_trans (hfl.round_le_self hh hlo hup) (by exact_mod_cast hge)

/-- Rounded arithmetic, natural dimensions below `2 ^ 32`: no resized side grows. -/
theorem resize_no_upscale {fl : ℚ → ℚ} (hfl : HalfUlp fl) (self : ImageOptimizer) {w h : ℕ}
    (hW : 0 < self.maxWidth) (hH : 0 < self.maxHeight) (hw : 0 < w) (hh : 0 < h)
    (hw32 : w < 2 ^ 32) (hh32 : h < 2 ^ 32) (hbig : self.maxWidth < w ∨ self.maxHeight < h) :
    mathRound (fl (w * scale fl self w h)) ≤ w ∧ mathRound (fl (h * scale fl self w h)) ≤ h := by
  have hlo := scale_lower hfl self hW hH hw hh hw32 hh32
  have hup := scale_upper hfl self hW hH hw hh hw32 hh32 hbig
  exact ⟨hfl.round_le_self hw hlo hup, hfl.round_le_self hh hlo hup⟩

/-- Rounded arithmetic: when the scale factor `s` is the ratio `M / d` up to one rounding,
the rounded product `fl (e * s)`, multiplied back by `d`, is the integer `e * M` up to a
relative error of two roundings. -/
theorem scaled_by_ratio {fl : ℚ → ℚ} (hfl : HalfUlp fl) {M d e : ℕ} {s : ℚ}
    (hM : 0 < M) (hd : 0 < d) (hd32 : d < 2 ^ 32) (he : 0 < e)
    (hs1 : (M : ℚ) / d * (1 - 1 / 2 ^ 53) ≤ s) (hs2 : s ≤ (M : ℚ) / d * (1 + 1 / 2 ^ 53)) :
    |(d : ℚ) * fl (e * s) - e * M| ≤ e * M * (2 / 2 ^ 53 + 1 / 2 ^ 106) := by
  have hdq : (0 : ℚ) < d := by exact_mod_cast hd
  have heq : (0 : ℚ) < e := by exact_mod_cast he
  have hMq : (1 : ℚ) ≤ M := by exact_mod_cast hM
  have hd32q : (d : ℚ) ≤ 2 ^ 32 := by exact_mod_cast hd32.le
  have hratio : (1 : ℚ) / 2 ^ 32 ≤ (M : ℚ) / d := by
    rw [div_le_div_iff₀ (by positivity) hdq]
    nlinarith
  have hs : (1 : ℚ) / 2 ^ 33 ≤ s := by
    calc (1 : ℚ) / 2 ^ 33 ≤ 1 / 2 ^ 32 * (1 - 1 / 2 ^ 53) := by norm_num
      _ ≤ (M : ℚ) / d * (1 - 1 / 2 ^ 53) := by gcongr
      _ ≤ s := hs1
  -- the exact product `d * s` lies within one rounding of `M`
  have hds1 : (M : ℚ) * (1 - 1 / 2 ^ 53) ≤ d * s := by
    calc (M : ℚ) * (1 - 1 / 2 ^ 53) = d * ((M : ℚ) / d * (1 - 1 / 2 ^ 53)) := by
          field_simp; ring
      _ ≤ d * s := by gcongr
  have hds2 : (d : ℚ) * s ≤ M * (1 + 1 / 2 ^ 53) := by
    calc (d : ℚ) * s ≤ d * ((M : ℚ) / d * (1 + 1 / 2 ^ 53)) := by gcongr
      _ = M * (1 + 1 / 2 ^ 53) := by field_simp; ring
  obtain ⟨y1, y2⟩ := hfl.scaled_bounds he hs
  have z1 : (e : ℚ) * (M * (1 - 1 / 2 ^ 53)) * (1 - 1 / 2 ^ 53) ≤ d * fl (e * s) := by
    calc (e : ℚ) * (M * (1 - 1 / 2 ^ 53)) * (1 - 1 / 2 ^ 53)
        ≤ e * (d * s) * (1 - 1 / 2 ^ 53) := by gcongr
      _ = d * (e * s * (1 - 1 / 2 ^ 53)) := by ring
      _ ≤ d * fl (e * s) := by gcongr
  have z2 : (d : ℚ) * fl (e * s) ≤ e * (M * (1 + 1 / 2 ^ 53)) * (1 + 1 / 2 ^ 53) := by
    calc (d : ℚ) * fl (e * s) ≤ d * (e * s * (1 + 1 / 2 ^ 53)) := by gcongr
      _ = e * (d * s) * (1 + 1 / 2 ^ 53) := by ring
      _ ≤ e * (M * (1 + 1 / 2 ^ 53)) * (1 + 1 / 2 ^ 53) := by gcongr
  have hup : (e : ℚ) * (M * (1 + 1 / 2 ^ 53)) * (1 + 1 / 2 ^ 53)
      = e * M + e * M * (2 / 2 ^ 53 + 1 / 2 ^ 106) := by ring
  have hlo : (e : ℚ) * (M * (1 - 1 / 2 ^ 53)) * (1 - 1 / 2 ^ 53)
      = e * M - e * M * (2 / 2 ^ 53 + 1 / 2 ^ 106) + e * M * (2 / 2 ^ 106) := by ring
  have hpos : (0 : ℚ) ≤ e * M * (2 / 2 ^ 106) := by positivity
  rw [abs_le]
  constructor <;> linarith

/-- Rounded arithmetic: when the scale factor is the rounded ratio `M / d` of a bound `M`
below its dimension `d`, the bound side comes out as exactly `M`, and the cross product
with the other side `e` is off by at most `(d + e) / 2`. -/
theorem cross_bound {fl : ℚ → ℚ} (hfl : HalfUlp fl) {M d e : ℕ} {s : ℚ}
    (hM : 0 < M) (hMd : M < d) (hd32 : d < 2 ^ 32) (he : 0 < e)
    (hs1 : (M : ℚ) / d * (1 - 1 / 2 ^ 53) ≤ s) (hs2 : s ≤ (M : ℚ) / d * (1 + 1 / 2 ^ 53)) :
    mathRound (fl (d * s)) = M ∧
      |(M : ℚ) * e - (mathRound (fl (e * s)) : ℚ) * d| ≤ ((d : ℚ) + e) / 2 := by
  have hd : 0 < d := Nat.zero_lt_of_lt hMd
  have hdq : (0 : ℚ) < d := by exact_mod_cast hd
  have heq : (0 : ℚ) < e := by exact_mod_cast he
  have hM32q : (M : ℚ) ≤ 2 ^ 32 := by exact_mod_cast (lt_trans hMd hd32).le
  have hMc : (M : ℚ) * (2 / 2 ^ 53 + 1 / 2 ^ 106) ≤ 1 / 4 := by
    calc (M : ℚ) * (2 / 2 ^ 53 + 1 / 2 ^ 106) ≤ 2 ^ 32 * (2 / 2 ^ 53 + 1 / 2 ^ 106) := by gcongr
      _ ≤ 1 / 4 := by norm_num
  have hdd := abs_le.1 (scaled_by_ratio hfl hM hd hd32 hd hs1 hs2)
  have hde := abs_le.1 (scaled_by_ratio hfl hM hd hd32 he hs1 hs2)
  constructor
  · have hdM : (d : ℚ) * (M * (2 / 2 ^ 53 + 1 / 2 ^ 106)) ≤ d * (1 / 4) := by gcongr
    have h1 : (d : ℚ) * ((M : ℚ) - 1 / 2) ≤ d * fl (d * s) := by linarith [hdd.1]
    have h2 : (d : ℚ) * fl (d * s) < d * ((M : ℚ) + 1 / 2) := by linarith [hdd.2]
    apply mathRound_eq_of_mem
    · push_cast
      exact le_of_mul_le_mul_left h1 hdq
    · push_cast
      exact lt_of_mul_lt_mul_left h2 hdq.le
  · have hec : (e : ℚ) * ((M : ℚ) * (2 / 2 ^ 53 + 1 / 2 ^ 106)) ≤ e * (1 / 4) := by gcongr
    have r1 := mathRound_sub_le (fl (e * s))
    have r2 := sub_mathRound_le (fl (e * s))
    have k1 : (d : ℚ) * ((mathRound (fl (e * s)) : ℚ) - fl (e * s)) ≤ d * (1 / 2) := by gcongr
    have k2 : (d : ℚ) * (fl (e * s) - (mathRound (fl (e * s)) : ℚ)) ≤ d * (1 / 2) := by gcongr
    rw [abs_le]
    constructor <;> linarith [hde.1, hde.2]

/-- Rounded arithmetic: a ratio of a bound to a dimension it is not below is at least
`1 - 2 ^ (-53)` after rounding, above every rounded ratio of a bound below its dimension. -/
theorem ratio_order {fl : ℚ → ℚ} (hfl : HalfUlp fl) {M d N e : ℕ}
    (hd : 0 < d) (hd32 : d < 2 ^ 32) (hdM : d ≤ M) (hN : 0 < N) (hNe : N < e)
    (he32 : e < 2 ^ 32) : fl ((N : ℚ) / e) < fl ((M : ℚ) / d) := by
  obtain ⟨a1, -, -⟩ := hfl.ratio_bounds (lt_of_lt_of_le hd hdM) hd hd32
  obtain ⟨-, b2, -⟩ := hfl.ratio_bounds hN (Nat.zero_lt_of_lt hNe) he32
  have hdq : (0 : ℚ) < d := by exact_mod_cast hd
  have h1 : (1 : ℚ) ≤ (M : ℚ) / d := by
    rw [one_le_div hdq]
    exact_mod_cast hdM
  have h2 := ratio_le_of_lt hNe he32
  have h3 : (1 : ℚ) * (1 - 1 / 2 ^ 53) ≤ (M : ℚ) / d * (1 - 1 / 2 ^ 53) := by gcongr
  have h4 : (N : ℚ) / e * (1 + 1 / 2 ^ 53) ≤ (1 - 1 / 2 ^ 32) * (1 + 1 / 2 ^ 53) := by gcongr
  have h5 : ((1 : ℚ) - 1 / 2 ^ 32) * (1 + 1 / 2 ^ 53) < 1 * (1 - 1 / 2 ^ 53) := by norm_num
  linarith

/-- Rounded arithmetic, natural dimensions below `2 ^ 32`: the resized sides keep the
aspect ratio up to the rounding of one side. -/
theorem resize_cross {fl : ℚ → ℚ} (hfl : HalfUlp fl) (self : ImageOptimizer) {w h : ℕ}
    (hW : 0 < self.maxWidth) (hH : 0 < self.maxHeight) (hw : 0 < w) (hh : 0 < h)
    (hw32 : w < 2 ^ 32) (hh32 : h < 2 ^ 32) (hbig : self.maxWidth < w ∨ self.maxHeight < h) :
    |(mathRound (fl (w * scale fl self w h)) : ℚ) * h
        - (mathRound (fl (h * scale fl self w h)) : ℚ) * w| ≤ ((w : ℚ) + h) / 2 := by
  obtain ⟨a1, a2, -⟩ := hfl.ratio_bounds hW hw hw32
  obtain ⟨b1, b2, -⟩ := hfl.ratio_bounds hH hh hh32
  rcases le_total (fl ((self.maxWidth : ℚ) / w)) (fl ((self.maxHeight : ℚ) / h)) with hab | hba
  · have hs : scale fl self w h = fl ((self.maxWidth : ℚ) / w) := min_eq_left hab
    have hWw : self.maxWidth < w := by
      by_contra hcon
      have hHh : self.maxHeight < h := by omega
      have := ratio_order hfl hw hw32 (not_lt.1 hcon) hH hHh hh32
      linarith
    obtain ⟨c1, c2⟩ := cross_bound hfl hW hWw hw32 hh a1 a2
    rw [hs, c1]
    push_cast
    exact c2
  · have hs : scale fl self w h = fl ((self.maxHeight : ℚ) / h) := min_eq_right hba
    have hHh : self.maxHeight < h := by
      by_contra hcon
      have hWw : self.maxWidth < w := by omega
      have := ratio_order hfl hh hh32 (not_lt.1 hcon) hW hWw hw32
      linarith
    obtain ⟨c1, c2⟩ := cross_bound hfl hH hHh hh32 hw b1 b2
    rw [hs, c1, abs_sub_comm]
    push_cast
    rw [add_comm]
    exact c2

/-- Rounded arithmetic, sides below `2 ^ 24`: when the scale factor is the rounded ratio
`M / d`, the other side `e` comes out within one half of its exact scaled value
`e * M / d`: the rounded product is closer to the exact one than any half-integer
distinct from it can be. -/
theorem near_exact {fl : ℚ → ℚ} (hfl : HalfUlp fl) {M d e : ℕ} {s : ℚ}
    (hM : 0 < M) (hMd : M < d) (hd24 : d < 2 ^ 24) (he : 0 < e) (he24 : e < 2 ^ 24)
    (hs1 : (M : ℚ) / d * (1 - 1 / 2 ^ 53) ≤ s) (hs2 : s ≤ (M : ℚ) / d * (1 + 1 / 2 ^ 53)) :
    |(mathRound (fl (e * s)) : ℚ) - e * ((M : ℚ) / d)| ≤ 1 / 2 := by
  have hd : 0 < d := Nat.zero_lt_of_lt hMd
  have hdq : (0 : ℚ) < d := by exact_mod_cast hd
  have hMq : (0 : ℚ) ≤ M := by positivity
  have hM24q : (M : ℚ) ≤ 2 ^ 24 := by exact_mod_cast (lt_trans hMd hd24).le
  have he24q : (e : ℚ) ≤ 2 ^ 24 := by exact_mod_cast he24.le
  have hde := abs_le.1 (scaled_by_ratio hfl hM hd (lt_trans hd24 (by norm_num)) he hs1 hs2)
  have heM : (e : ℚ) * M * (2 / 2 ^ 53 + 1 / 2 ^ 106) < 1 / 2 := by
    calc (e : ℚ) * M * (2 / 2 ^ 53 + 1 / 2 ^ 106)
        ≤ 2 ^ 24 * 2 ^ 24 * (2 / 2 ^ 53 + 1 / 2 ^ 106) := by gcongr
      _ < 1 / 2 := by norm_num
  have r1 := mathRound_sub_le (fl (e * s))
  have r2 := sub_mathRound_le (fl (e * s))
  have k1 : (d : ℚ) * ((mathRound (fl (e * s)) : ℚ) - fl (e * s)) ≤ d * (1 / 2) := by gcongr
  have k2 : (d : ℚ) * (fl (e * s) - (mathRound (fl (e * s)) : ℚ)) ≤ d * (1 / 2) := by gcongr
  set k : ℤ := mathRound (fl (e * s)) with hk
  -- in integers: `|2 * d * k - 2 * e * M| < d + 1`, hence at most `d`
  have i1 : (2 * (d : ℤ) * k - 2 * ((e : ℤ) * M) : ℤ) < d + 1 := by
    have : ((2 * (d : ℤ) * k - 2 * ((e : ℤ) * M) : ℤ) : ℚ) < ((d + 1 : ℤ) : ℚ) := by
      push_cast
      linarith [hde.1, hde.2]
    exact_mod_cast this
  have i2 : (2 * ((e : ℤ) * M) - 2 * (d : ℤ) * k : ℤ) < d + 1 := by
    have : ((2 * ((e : ℤ) * M) - 2 * (d : ℤ) * k : ℤ) : ℚ) < ((d + 1 : ℤ) : ℚ) := by
      push_cast
      linarith [hde.1, hde.2]
    exact_mod_cast this
  have j1 : ((2 * (d : ℤ) * k - 2 * ((e : ℤ) * M) : ℤ) : ℚ) ≤ ((d : ℤ) : ℚ) := by
    exact_mod_cast (Int.lt_add_one_iff.1 i1)
  have j2 : ((2 * ((e : ℤ) * M) - 2 * (d : ℤ) * k : ℤ) : ℚ) ≤ ((d : ℤ) : ℚ) := by
    exact_mod_cast (Int.lt_add_one_iff.1 i2)
  push_cast at j1 j2
  have hdv : (d : ℚ) * (e * ((M : ℚ) / d)) = e * M := by field_simp
  have h1 : (d : ℚ) * ((k : ℚ) - e * ((M : ℚ) / d)) ≤ d * (1 / 2) := by
    rw [mul_sub, hdv]; linarith
  have h2 : (d : ℚ) * (-(1 / 2)) ≤ d * ((k : ℚ) - e * ((M : ℚ) / d)) := by
    rw [mul_sub, hdv]; linarith
  exact abs_le.2 ⟨le_of_mul_le_mul_left h2 hdq, le_of_mul_le_mul_left h1 hdq⟩

/-- Rounded arithmetic, sides below `2 ^ 24`: the order of two rounded ratios, the first
of a bound below its dimension, is the order of the exact ratios. -/
theorem exact_order {fl : ℚ → ℚ} (hfl : HalfUlp fl) {M d N e : ℕ}
    (hM : 0 < M) (hMd : M < d) (hd24 : d < 2 ^ 24) (hN : 0 < N) (he : 0 < e) (he24 : e < 2 ^ 24)
    (hle : fl ((M : ℚ) / d) ≤ fl ((N : ℚ) / e)) : (M : ℚ) / d ≤ (N : ℚ) / e := by
  have hd : 0 < d := Nat.zero_lt_of_lt hMd
  have hdq : (0 : ℚ) < d := by exact_mod_cast hd
  have heq : (0 : ℚ) < e := by exact_mod_cast he
  obtain ⟨a1, -, -⟩ := hfl.ratio_bounds hM hd (lt_trans hd24 (by norm_num))
  obtain ⟨-, b2, -⟩ := hfl.ratio_bounds hN he (lt_trans he24 (by norm_num))
  by_contra hcon
  rw [not_le, div_lt_div_iff₀ heq hdq] at hcon
  have hnat : N * d < M * e := by exact_mod_cast hcon
  have hNe : N < e := by
    by_contra hge
    have h1 : e * d ≤ N * d := Nat.mul_le_mul_right d (not_lt.1 hge)
    have h2 : M * e < d * e := Nat.mul_lt_mul_of_pos_right hMd he
    have h3 : d * e = e * d := Nat.mul_comm d e
    omega
  have hstep : (N : ℚ) * d + 1 ≤ M * e := by exact_mod_cast hnat
  have hNd : (N : ℚ) * d ≤ 2 ^ 24 * 2 ^ 24 := by
    have h1 : (N : ℚ) ≤ 2 ^ 24 := by exact_mod_cast (lt_trans hNe he24).le
    have h2 : (d : ℚ) ≤ 2 ^ 24 := by exact_mod_cast hd24.le
    gcongr
  have hchain : (M : ℚ) / d * (1 - 1 / 2 ^ 53) ≤ (N : ℚ) / e * (1 + 1 / 2 ^ 53) :=
    le_trans a1 (le_trans hle b2)
  have e1 : (M : ℚ) / d * (1 - 1 / 2 ^ 53) = (M * e * (1 - 1 / 2 ^ 53)) / (d * e) := by
    field_simp; ring
  have e2 : (N : ℚ) / e * (1 + 1 / 2 ^ 53) = (N * d * (1 + 1 / 2 ^ 53)) / (d * e) := by
    field_simp; ring
  rw [e1, e2, div_le_div_iff_of_pos_right (by positivity)] at hchain
  have hu : ((N : ℚ) * d + 1) * (1 - 1 / 2 ^ 53) ≤ M * e * (1 - 1 / 2 ^ 53) := by
    gcongr
  have hexp : ((N : ℚ) * d + 1) * (1 - 1 / 2 ^ 53) - N * d * (1 + 1 / 2 ^ 53)
      = 1 - 1 / 2 ^ 53 - N * d * (2 / 2 ^ 53) := by ring
  have hsmall : (N : ℚ) * d * (2 / 2 ^ 53) ≤ 2 ^ 24 * 2 ^ 24 * (2 / 2 ^ 53) := by gcongr
  have hc : (2 : ℚ) ^ 24 * 2 ^ 24 * (2 / 2 ^ 53) < 1 - 1 / 2 ^ 53 := by norm_num
  linarith

/-- Rounded arithmetic, natural dimensions below `2 ^ 24`: each resized side is within one
half of its exact scaled value. -/
theorem resize_near_exact {fl : ℚ → ℚ} (hfl : HalfUlp fl) (self : ImageOptimizer) {w h : ℕ}
    (hW : 0 < self.maxWidth) (hH : 0 < self.maxHeight) (hw : 0 < w) (hh : 0 < h)
    (hw24 : w < 2 ^ 24) (hh24 : h < 2 ^ 24) (hbig : self.maxWidth < w ∨ self.maxHeight < h) :
    |(mathRound (fl (w * scale fl self w h)) : ℚ)
        - w * min ((self.maxWidth : ℚ) / w) ((self.maxHeight : ℚ) / h)| ≤ 1 / 2 ∧
    |(mathRound (fl (h * scale fl self w h)) : ℚ)
        - h * min ((self.maxWidth : ℚ) / w) ((self.maxHeight : ℚ) / h)| ≤ 1 / 2 := by
  have hw32 : w < 2 ^ 32 := lt_trans hw24 (by norm_num)
  have hh32 : h < 2 ^ 32 := lt_trans hh24 (by norm_num)
  have hwq : (w : ℚ) ≠ 0 := by exact_mod_cast hw.ne'
  have hhq : (h : ℚ) ≠ 0 := by exact_mod_cast hh.ne'
  obtain ⟨a1, a2, -⟩ := hfl.ratio_bounds hW hw hw32
  obtain ⟨b1, b2, -⟩ := hfl.ratio_bounds hH hh hh32
  rcases le_total (fl ((self.maxWidth : ℚ) / w)) (fl ((self.maxHeight : ℚ) / h)) with hab | hba
  · have hs : scale fl self w h = fl ((self.maxWidth : ℚ) / w) := min_eq_left hab
    have hWw : self.maxWidth < w := by
      by_contra hcon
      have hHh : self.maxHeight < h := by omega
      have := ratio_order hfl hw hw32 (not_lt.1 hcon) hH hHh hh32
      linarith
    have hmin := min_eq_left (exact_order hfl hW hWw hw24 hH hh hh24 hab)
    obtain ⟨c1, -⟩ := cross_bound hfl hW hWw hw32 hh a1 a2
    have c3 := near_exact hfl hW hWw hw24 hh hh24 a1 a2
    rw [hs, hmin, c1]
    refine ⟨?_, c3⟩
    have : ((self.maxWidth : ℤ) : ℚ) - w * ((self.maxWidth : ℚ) / w) = 0 := by
      push_cast; field_simp
    rw [this]
    norm_num
  · have hs : scale fl self w h = fl ((self.maxHeight : ℚ) / h) := min_eq_right hba
    have hHh : self.maxHeight < h := by
      by_contra hcon
      have hWw : self.maxWidth < w := by omega
      have := ratio_order hfl hh hh32 (not_lt.1 hcon) hW hWw hw32
      linarith
    have hmin := min_eq_right (exact_order hfl hH hHh hh24 hW hw hw24 hba)
    obtain ⟨c1, -⟩ := cross_bound hfl hH hHh hh32 hw b1 b2
    have c3 := near_exact hfl hH hHh hh24 hw hw24 b1 b2
    rw [hs, hmin, c1]
    refine ⟨c3, ?_⟩
    have : ((self.maxHeight : ℤ) : ℚ) - h * ((self.maxHeight : ℚ) / h) = 0 := by
      push_cast; field_simp
    rw [this]
    norm_num

end ImageOptimizer

/-! ## Evaluation at the examples of the specification -/

namespace ImageOptimizer

/-- Field `maxWidth` of the profile-picture preset. -/
theorem profilePicture_maxWidth : profilePictureOptimizer.maxWidth = 300 := rfl

/-- Field `maxHeight` of the profile-picture preset. -/
theorem profilePicture_maxHeight : profilePictureOptimizer.maxHeight = 300 := rfl

/-- Field `maxWidth` of the team-photo preset. -/
theorem teamPhoto_maxWidth : teamPhotoOptimizer.maxWidth = 1200 := rfl

/-- Field `maxHeight` of the team-photo preset. -/
theorem teamPhoto_maxHeight : teamPhotoOptimizer.maxHeight = 800 := rfl

/-- Field `maxSizeMB` of the team-photo preset. -/
theorem teamPhoto_maxSizeMB : teamPhotoOptimizer.maxSizeMB = 5 := by
  simp [teamPhotoOptimizer, new, orDefault]

/-- Field `maxSizeMB` of the team-logo preset. -/
theorem teamLogo_maxSizeMB : teamLogoOptimizer.maxSizeMB = 2 := by
  simp [teamLogoOptimizer, new, orDefault]

/-- The quotient `300 / 1200` is a binary64 value. -/
theorem binary64_quarter : binary64 (1 / 4) = 1 / 4 := by
  rw [binary64_eq_of_binade (e := -2) (m := 2 ^ 52) (by norm_num) (by norm_num) (by norm_num)
    (by norm_num)]
  norm_num

/-- The quotient `300 / 800` is a binary64 value. -/
theorem binary64_three_eighths : binary64 (3 / 8) = 3 / 8 := by
  rw [binary64_eq_of_binade (e := -2) (m := 3 * 2 ^ 51) (by norm_num) (by norm_num) (by norm_num)
    (by norm_num)]
  norm_num

/-- The integer `300` is a binary64 value. -/
theorem binary64_300 : binary64 300 = 300 := by
  rw [binary64_eq_of_binade (e := 8) (m := 300 * 2 ^ 44) (by norm_num) (by norm_num) (by norm_num)
    (by norm_num)]
  norm_num

/-- The integer `200` is a binary64 value. -/
theorem binary64_200 : binary64 200 = 200 := by
  rw [binary64_eq_of_binade (e := 7) (m := 200 * 2 ^ 45) (by norm_num) (by norm_num) (by norm_num)
    (by norm_num)]
  norm_num

/-- The binary64 quotient `300 / 10000`: the double nearest to `0.03`, just below it. -/
theorem binary64_three_hundredths :
    binary64 (3 / 100) = 8646911284551352 / 2 ^ 58 := by
  rw [binary64_eq_of_binade (e := -6) (m := 8646911284551352) (by norm_num) (by norm_num)
    (by norm_num) (by norm_num [abs_lt])]
  norm_num

/-- The binary64 product of `10000` and the double nearest to `0.03` is `300`. -/
theorem binary64_scaled_10000 :
    binary64 (10000 * (8646911284551352 / 2 ^ 58)) = 300 := by
  rw [binary64_eq_of_binade (e := 8) (m := 300 * 2 ^ 44) (by norm_num) (by norm_num)
    (by norm_num) (by norm_num [abs_lt])]
  norm_num

/-- The binary64 product of `1` and the double nearest to `0.03` is that double. -/
theorem binary64_scaled_1 :
    binary64 (1 * (8646911284551352 / 2 ^ 58)) = 8646911284551352 / 2 ^ 58 := by
  rw [binary64_eq_of_binade (e := -6) (m := 8646911284551352) (by norm_num) (by norm_num)
    (by norm_num) (by norm_num [abs_lt])]
  norm_num

/-- The specification example under real arithmetic. -/
theorem profilePicture_unrounded_1200_800 :
    calculateDimensions unrounded profilePictureOptimizer 1200 800
      = { width := 300, height := 200 } := by
  rw [calculateDimensions_resize _ _ _ _ (by decide), scale_unrounded, profilePicture_maxWidth,
    profilePicture_maxHeight]
  have hmin : min (((300 : ℕ) : ℚ) / ((1200 : ℕ) : ℚ)) (((300 : ℕ) : ℚ) / ((800 : ℕ) : ℚ))
      = 1 / 4 := by
    rw [min_eq_left (by norm_num)]; norm_num
  rw [hmin]
  simp only [unrounded]
  rw [mathRound_eq_of_mem (n := 300) (by norm_num) (by norm_num),
    mathRound_eq_of_mem (n := 200) (by norm_num) (by norm_num)]

/-- The specification example under binary64 arithmetic. -/
theorem profilePicture_binary64_1200_800 :
    calculateDimensions binary64 profilePictureOptimizer 1200 800
      = { width := 300, height := 200 } := by
  rw [calculateDimensions_resize _ _ _ _ (by decide)]
  have hs : scale binary64 profilePictureOptimizer 1200 800 = 1 / 4 := by
    simp only [scale, profilePicture_maxWidth, profilePicture_maxHeight]
    have h1 : (((300 : ℕ) : ℚ) / ((1200 : ℕ) : ℚ)) = 1 / 4 := by norm_num
    have h2 : (((300 : ℕ) : ℚ) / ((800 : ℕ) : ℚ)) = 3 / 8 := by norm_num
    rw [h1, h2, binary64_quarter, binary64_three_eighths, min_eq_left (by norm_num)]
  rw [hs]
  have h3 : (((1200 : ℕ) : ℚ) * (1 / 4)) = 300 := by norm_num
  have h4 : (((800 : ℕ) : ℚ) * (1 / 4)) = 200 := by norm_num
  rw [h3, h4, binary64_300, binary64_200,
    mathRound_eq_of_mem (n := 300) (by norm_num) (by norm_num),
    mathRound_eq_of_mem (n := 200) (by norm_num) (by norm_num)]

/-- A `10000 x 1` image under the profile-picture preset, real arithmetic. -/
theorem profilePicture_unrounded_10000_1 :
    calculateDimensions unrounded profilePictureOptimizer 10000 1
      = { width := 300, height := 0 } := by
  rw [calculateDimensions_resize _ _ _ _ (by decide), scale_unrounded, profilePicture_maxWidth,
    profilePicture_maxHeight]
  have hmin : min (((300 : ℕ) : ℚ) / ((10000 : ℕ) : ℚ)) (((300 : ℕ) : ℚ) / ((1 : ℕ) : ℚ))
      = 3 / 100 := by
    rw [min_eq_left (by norm_num)]; norm_num
  rw [hmin]
  simp only [unrounded]
  rw [mathRound_eq_of_mem (n := 300) (by norm_num) (by norm_num),
    mathRound_eq_of_mem (n := 0) (by norm_num) (by norm_num)]

/-- A `10000 x 1` image under the profile-picture preset, binary64 arithmetic. -/
theorem profilePicture_binary64_10000_1 :
    calculateDimensions binary64 profilePictureOptimizer 10000 1
      = { width := 300, height := 0 } := by
  rw [calculateDimensions_resize _ _ _ _ (by decide)]
  have hs : scale binary64 profilePictureOptimizer 10000 1 = 8646911284551352 / 2 ^ 58 := by
    simp only [scale, profilePicture_maxWidth, profilePicture_maxHeight]
    have h1 : (((300 : ℕ) : ℚ) / ((10000 : ℕ) : ℚ)) = 3 / 100 := by norm_num
    have h2 : (((300 : ℕ) : ℚ) / ((1 : ℕ) : ℚ)) = 300 := by norm_num
    rw [h1, h2, binary64_three_hundredths, binary64_300, min_eq_left (by norm_num)]
  rw [hs]
  have h3 : (((10000 : ℕ) : ℚ) * (8646911284551352 / 2 ^ 58))
      = 10000 * (8646911284551352 / 2 ^ 58) := by norm_num
  have h4 : (((1 : ℕ) : ℚ) * (8646911284551352 / 2 ^ 58))
      = 1 * (8646911284551352 / 2 ^ 58) := by norm_num
  rw [h3, h4, binary64_scaled_10000, binary64_scaled_1,
    mathRound_eq_of_mem (n := 300) (by norm_num) (by norm_num),
    mathRound_eq_of_mem (n := 0) (by norm_num) (by norm_num)]

/-- The binary64 quotient `300 / 1716`. -/
theorem binary64_25_143 : binary64 (25 / 143) = 6298740737581113 / 2 ^ 55 := by
  rw [binary64_eq_of_binade (e := -3) (m := 6298740737581113) (by norm_num) (by norm_num)
    (by norm_num) (by norm_num [abs_lt])]
  norm_num

/-- The binary64 quotient `300 / 2080`. -/
theorem binary64_15_104 : binary64 (15 / 104) = 5196461108504418 / 2 ^ 55 := by
  rw [binary64_eq_of_binade (e := -3) (m := 5196461108504418) (by norm_num) (by norm_num)
    (by norm_num) (by norm_num [abs_lt])]
  norm_num

/-- The binary64 product of `1716` and the rounded quotient `300 / 2080` lies just below
`247.5`. -/
theorem binary64_scaled_1716 :
    binary64 (1716 * (5196461108504418 / 2 ^ 55)) = 8708132091985919 / 2 ^ 45 := by
  rw [binary64_eq_of_binade (e := 7) (m := 8708132091985919) (by norm_num) (by norm_num)
    (by norm_num) (by norm_num [abs_lt])]
  norm_num

/-- The binary64 product of `2080` and the rounded quotient `300 / 2080` is `300`. -/
theorem binary64_scaled_2080 :
    binary64 (2080 * (5196461108504418 / 2 ^ 55)) = 300 := by
  rw [binary64_eq_of_binade (e := 8) (m := 300 * 2 ^ 44) (by norm_num) (by norm_num)
    (by norm_num) (by norm_num [abs_lt])]
  norm_num

/-- The two arithmetics can differ by one where the exact scaled value is a tie.  For a
`1716 x 2080` image under the profile-picture preset the exact scaled width is `247.5`:
real arithmetic rounds it to `248`, while the binary64 product is just below `247.5` and
rounds to `247`. -/
theorem binary64_differs_at_tie :
    calculateDimensions binary64 profilePictureOptimizer 1716 2080
      = { width := 247, height := 300 } ∧
    calculateDimensions unrounded profilePictureOptimizer 1716 2080
      = { width := 248, height := 300 } := by
  constructor
  · rw [calculateDimensions_resize _ _ _ _ (by decide)]
    have hs : scale binary64 profilePictureOptimizer 1716 2080 = 5196461108504418 / 2 ^ 55 := by
      simp only [scale, profilePicture_maxWidth, profilePicture_maxHeight]
      have h1 : (((300 : ℕ) : ℚ) / ((1716 : ℕ) : ℚ)) = 25 / 143 := by norm_num
      have h2 : (((300 : ℕ) : ℚ) / ((2080 : ℕ) : ℚ)) = 15 / 104 := by norm_num
      rw [h1, h2, binary64_25_143, binary64_15_104, min_eq_right (by norm_num)]
    rw [hs]
    have h3 : (((1716 : ℕ) : ℚ) * (5196461108504418 / 2 ^ 55))
        = 1716 * (5196461108504418 / 2 ^ 55) := by norm_num
    have h4 : (((2080 : ℕ) : ℚ) * (5196461108504418 / 2 ^ 55))
        = 2080 * (5196461108504418 / 2 ^ 55) := by norm_num
    rw [h3, h4, binary64_scaled_1716, binary64_scaled_2080,
      mathRound_eq_of_mem (n := 247) (by norm_num) (by norm_num),
      mathRound_eq_of_mem (n := 300) (by norm_num) (by norm_num)]
  · rw [calculateDimensions_resize _ _ _ _ (by decide), scale_unrounded, profilePicture_maxWidth,
      profilePicture_maxHeight]
    have hmin : min (((300 : ℕ) : ℚ) / ((1716 : ℕ) : ℚ)) (((300 : ℕ) : ℚ) / ((2080 : ℕ) : ℚ))
        = 15 / 104 := by
      rw [min_eq_right (by norm_num)]; norm_num
    rw [hmin]
    simp only [unrounded]
    rw [mathRound_eq_of_mem (n := 248) (by norm_num) (by norm_num),
      mathRound_eq_of_mem (n := 300) (by norm_num) (by norm_num)]

end ImageOptimizer

/-! ## Properties of `calculateDimensions` -/

namespace ImageOptimizer

/-- C1: with positive bounds and positive natural dimensions exceeding a bound,
`calculateDimensions` returns `round(w * scale)` and `round(h * scale)` for
`scale = min(maxWidth / w, maxHeight / h)`, and both sides fit: width at most `maxWidth` and
height at most `maxHeight`.  The formula holds in either arithmetic, each of its three
operations being rounded in binary64 arithmetic.  The two bounds hold in real arithmetic
for all such inputs, and in binary64 arithmetic for natural dimensions below `2 ^ 32` (the
range of `img.width`).  Example: `1200 x 800` under `300 x 300` gives `300 x 200` in both
arithmetics. -/
theorem calculateDimensions_within_bounds (self : ImageOptimizer) (w h : ℕ)
    (hW : 0 < self.maxWidth) (hH : 0 < self.maxHeight) (hw : 0 < w) (hh : 0 < h)
    (hbig : self.maxWidth < w ∨ self.maxHeight < h) :
    (calculateDimensions unrounded self w h =
        { width := mathRound (w * min ((self.maxWidth : ℚ) / w) ((self.maxHeight : ℚ) / h))
          height := mathRound (h * min ((self.maxWidth : ℚ) / w) ((self.maxHeight : ℚ) / h)) } ∧
      (calculateDimensions unrounded self w h).width ≤ self.maxWidth ∧
      (calculateDimensions unrounded self w h).height ≤ self.maxHeight) ∧
    calculateDimensions binary64 self w h =
      { width := mathRound (binary64 (w * min (binary64 ((self.maxWidth : ℚ) / w))
          (binary64 ((self.maxHeight : ℚ) / h))))
        height := mathRound (binary64 (h * min (binary64 ((self.maxWidth : ℚ) / w))
          (binary64 ((self.maxHeight : ℚ) / h)))) } ∧
    (w < 2 ^ 32 → h < 2 ^ 32 →
      (calculateDimensions binary64 self w h).width ≤ self.maxWidth ∧
      (calculateDimensions binary64 self w h).height ≤ self.maxHeight) ∧
    calculateDimensions unrounded profilePictureOptimizer 1200 800
      = { width := 300, height := 200 } ∧
    calculateDimensions binary64 profilePictureOptimizer 1200 800
      = { width := 300, height := 200 } := by
  refine ⟨⟨?_, ?_, ?_⟩, calculateDimensions_resize _ _ _ _ hbig, ?_,
    profilePicture_unrounded_1200_800, profilePicture_binary64_1200_800⟩
  · rw [calculateDimensions_resize _ _ _ _ hbig, scale_unrounded]
    rfl
  · rw [calculateDimensions_resize _ _ _ _ hbig]
    apply mathRound_le_of_lt
    have := width_scale_unrounded_le self h hw
    simp only [unrounded]
    push_cast
    linarith
  · rw [calculateDimensions_resize _ _ _ _ hbig]
    apply mathRound_le_of_lt
    have := height_scale_unrounded_le self w hh
    simp only [unrounded]
    push_cast
    linarith
  · intro hw32 hh32
    rw [calculateDimensions_resize _ _ _ _ hbig]
    exact resize_fits halfUlp_binary64 self hW hH hw hh hw32 hh32 hbig

/-- Witness for C1: the profile-picture preset (`300 x 300`) on a `1200 x 800` image. -/
theorem calculateDimensions_within_bounds_witness :
    (0 < profilePictureOptimizer.maxWidth ∧ 0 < profilePictureOptimizer.maxHeight ∧
      (profilePictureOptimizer.maxWidth < 1200 ∨ profilePictureOptimizer.maxHeight < 800)) ∧
    (calculateDimensions unrounded profilePictureOptimizer 1200 800).width
      ≤ profilePictureOptimizer.maxWidth ∧
    (calculateDimensions binary64 profilePictureOptimizer 1200 800).height
      ≤ profilePictureOptimizer.maxHeight :=
  have hthm := calculateDimensions_within_bounds profilePictureOptimizer 1200 800
    (by decide) (by decide) (by decide) (by decide) (by decide)
  ⟨⟨by decide, by decide, by decide⟩, hthm.1.2.1, (hthm.2.2.1 (by norm_num) (by norm_num)).2⟩

/-- C2: natural dimensions within both bounds are returned unchanged, whatever the
arithmetic.  Example: `800 x 600` under `1200 x 800` stays `800 x 600`. -/
theorem calculateDimensions_unchanged (fl : ℚ → ℚ) (self : ImageOptimizer) (w h : ℕ)
    (hw : w ≤ self.maxWidth) (hh : h ≤ self.maxHeight) :
    calculateDimensions fl self w h = { width := w, height := h } ∧
    calculateDimensions binary64 teamPhotoOptimizer 800 600 = { width := 800, height := 600 } :=
  ⟨calculateDimensions_keep fl self w h hw hh,
    calculateDimensions_keep binary64 teamPhotoOptimizer 800 600 (by decide) (by decide)⟩

/-- Witness for C2: the team-photo preset (`1200 x 800`) on an `800 x 600` image. -/
theorem calculateDimensions_unchanged_witness :
    (800 ≤ teamPhotoOptimizer.maxWidth ∧ 600 ≤ teamPhotoOptimizer.maxHeight) ∧
    calculateDimensions unrounded teamPhotoOptimizer 800 600 = { width := 800, height := 600 } :=
  ⟨⟨by decide, by decide⟩,
    (calculateDimensions_unchanged unrounded teamPhotoOptimizer 800 600 (by decide) (by decide)).1⟩

/-- C3: with positive bounds and positive natural dimensions `calculateDimensions` never
upscales (width at most `w`, height at most `h`), and in the resize branch the scale factor
`min(maxWidth / w, maxHeight / h)` is strictly below one.  This holds in real arithmetic
for all such inputs, and in binary64 arithmetic for natural dimensions below `2 ^ 32`. -/
theorem calculateDimensions_never_upscales (self : ImageOptimizer) (w h : ℕ)
    (hW : 0 < self.maxWidth) (hH : 0 < self.maxHeight) (hw : 0 < w) (hh : 0 < h) :
    ((calculateDimensions unrounded self w h).width ≤ w ∧
      (calculateDimensions unrounded self w h).height ≤ h ∧
      (self.maxWidth < w ∨ self.maxHeight < h →
        min ((self.maxWidth : ℚ) / w) ((self.maxHeight : ℚ) / h) < 1)) ∧
    (w < 2 ^ 32 → h < 2 ^ 32 →
      (calculateDimensions binary64 self w h).width ≤ w ∧
      (calculateDimensions binary64 self w h).height ≤ h ∧
      (self.maxWidth < w ∨ self.maxHeight < h →
        min (binary64 ((self.maxWidth : ℚ) / w)) (binary64 ((self.maxHeight : ℚ) / h)) < 1)) := by
  by_cases hbig : self.maxWidth < w ∨ self.maxHeight < h
  · have hlt := scale_unrounded_lt_one self hw hh hbig
    have hpos := scale_unrounded_pos self hW hH hw hh
    have hwq : (0 : ℚ) < w := by exact_mod_cast hw
    have hhq : (0 : ℚ) < h := by exact_mod_cast hh
    refine ⟨⟨?_, ?_, fun _ => ?_⟩, fun hw32 hh32 => ⟨?_, ?_, fun _ => ?_⟩⟩
    · rw [calculateDimensions_resize _ _ _ _ hbig]
      apply mathRound_le_of_lt
      simp only [unrounded]
      push_cast
      nlinarith
    · rw [calculateDimensions_resize _ _ _ _ hbig]
      apply mathRound_le_of_lt
      simp only [unrounded]
      push_cast
      nlinarith
    · rw [← scale_unrounded]
      exact hlt
    · rw [calculateDimensions_resize _ _ _ _ hbig]
      exact (resize_no_upscale halfUlp_binary64 self hW hH hw hh hw32 hh32 hbig).1
    · rw [calculateDimensions_resize _ _ _ _ hbig]
      exact (resize_no_upscale halfUlp_binary64 self hW hH hw hh hw32 hh32 hbig).2
    · have := scale_upper halfUlp_binary64 self hW hH hw hh hw32 hh32 hbig
      have hc : ((1 : ℚ) - 1 / 2 ^ 32) * (1 + 1 / 2 ^ 53) < 1 := by norm_num
      exact lt_of_le_of_lt this hc
  · have hw' : w ≤ self.maxWidth := by omega
    have hh' : h ≤ self.maxHeight := by omega
    refine ⟨⟨?_, ?_, fun hb => absurd hb hbig⟩, fun _ _ => ⟨?_, ?_, fun hb => absurd hb hbig⟩⟩
    all_goals rw [calculateDimensions_keep _ _ _ _ hw' hh']

/-- Witness for C3: the profile-picture preset (`300 x 300`) on a `1200 x 800` image. -/
theorem calculateDimensions_never_upscales_witness :
    (0 < profilePictureOptimizer.maxWidth ∧ 0 < profilePictureOptimizer.maxHeight) ∧
    (calculateDimensions binary64 profilePictureOptimizer 1200 800).width ≤ 1200 ∧
    (calculateDimensions binary64 profilePictureOptimizer 1200 800).height ≤ 800 :=
  have hthm := calculateDimensions_never_upscales profilePictureOptimizer 1200 800
    (by decide) (by decide) (by decide) (by decide)
  ⟨⟨by decide, by decide⟩, (hthm.2 (by norm_num) (by norm_num)).1,
    (hthm.2 (by norm_num) (by norm_num)).2.1⟩

/-- C4: for positive natural dimensions exceeding a bound, both sides are scaled by the
same factor `scale = min(maxWidth / w, maxHeight / h)`, each returned side is within `1 / 2`
of its exact scaled value, and so `|width * h - height * w| ≤ (w + h) / 2`.  In real
arithmetic this holds for all such inputs.  In binary64 arithmetic the cross-product bound
holds for natural dimensions below `2 ^ 32`, and the two side bounds (against the exact
scaled values) hold for natural dimensions below `2 ^ 24`. -/
theorem calculateDimensions_aspect_ratio (self : ImageOptimizer) (w h : ℕ)
    (hW : 0 < self.maxWidth) (hH : 0 < self.maxHeight) (hw : 0 < w) (hh : 0 < h)
    (hbig : self.maxWidth < w ∨ self.maxHeight < h) :
    (|((calculateDimensions unrounded self w h).width : ℚ)
          - w * min ((self.maxWidth : ℚ) / w) ((self.maxHeight : ℚ) / h)| ≤ 1 / 2 ∧
      |((calculateDimensions unrounded self w h).height : ℚ)
          - h * min ((self.maxWidth : ℚ) / w) ((self.maxHeight : ℚ) / h)| ≤ 1 / 2 ∧
      |((calculateDimensions unrounded self w h).width : ℚ) * h
          - ((calculateDimensions unrounded self w h).height : ℚ) * w| ≤ ((w : ℚ) + h) / 2) ∧
    (w < 2 ^ 32 → h < 2 ^ 32 →
      |((calculateDimensions binary64 self w h).width : ℚ) * h
          - ((calculateDimensions binary64 self w h).height : ℚ) * w| ≤ ((w : ℚ) + h) / 2) ∧
    (w < 2 ^ 24 → h < 2 ^ 24 →
      |((calculateDimensions binary64 self w h).width : ℚ)
          - w * min ((self.maxWidth : ℚ) / w) ((self.maxHeight : ℚ) / h)| ≤ 1 / 2 ∧
      |((calculateDimensions binary64 self w h).height : ℚ)
          - h * min ((self.maxWidth : ℚ) / w) ((self.maxHeight : ℚ) / h)| ≤ 1 / 2) := by
  refine ⟨?_, fun hw32 hh32 => ?_, fun hw24 hh24 => ?_⟩
  · rw [calculateDimensions_resize _ _ _ _ hbig, ← scale_unrounded]
    simp only [unrounded]
    have hwq : (0 : ℚ) < w := by exact_mod_cast hw
    have hhq : (0 : ℚ) < h := by exact_mod_cast hh
    have a1 := mathRound_sub_le (w * scale unrounded self w h)
    have a2 := sub_mathRound_le (w * scale unrounded self w h)
    have b1 := mathRound_sub_le (h * scale unrounded self w h)
    have b2 := sub_mathRound_le (h * scale unrounded self w h)
    refine ⟨abs_le.2 ⟨by linarith, by linarith⟩, abs_le.2 ⟨by linarith, by linarith⟩, ?_⟩
    rw [abs_le]
    constructor <;> nlinarith
  · rw [calculateDimensions_resize _ _ _ _ hbig]
    exact resize_cross halfUlp_binary64 self hW hH hw hh hw32 hh32 hbig
  · rw [calculateDimensions_resize _ _ _ _ hbig]
    exact resize_near_exact halfUlp_binary64 self hW hH hw hh hw24 hh24 hbig

/-- Witness for C4: the profile-picture preset (`300 x 300`) on a `1200 x 800` image. -/
theorem calculateDimensions_aspect_ratio_witness :
    (0 < profilePictureOptimizer.maxWidth ∧ 0 < profilePictureOptimizer.maxHeight ∧
      (profilePictureOptimizer.maxWidth < 1200 ∨ profilePictureOptimizer.maxHeight < 800)) ∧
    |((calculateDimensions binary64 profilePictureOptimizer 1200 800).width : ℚ) * (800 : ℕ)
        - ((calculateDimensions binary64 profilePictureOptimizer 1200 800).height : ℚ)
          * (1200 : ℕ)| ≤ (((1200 : ℕ) : ℚ) + (800 : ℕ)) / 2 :=
  ⟨⟨by decide, by decide, by decide⟩,
    (calculateDimensions_aspect_ratio profilePictureOptimizer 1200 800
      (by decide) (by decide) (by decide) (by decide) (by decide)).2.1
      (by norm_num) (by norm_num)⟩

/-- C10: a computed side can be zero although the natural dimensions and the bounds are all
positive: a `10000 x 1` image under `maxWidth = 300`, `maxHeight = 300` yields width `300`
and height `round(0.03) = 0`, in real and in binary64 arithmetic. -/
theorem calculateDimensions_zero_side :
    (0 < profilePictureOptimizer.maxWidth ∧ 0 < profilePictureOptimizer.maxHeight) ∧
    calculateDimensions unrounded profilePictureOptimizer 10000 1 = { width := 300, height := 0 } ∧
    calculateDimensions binary64 profilePictureOptimizer 10000 1
      = { width := 300, height := 0 } ∧
    ∃ (self : ImageOptimizer) (w h : ℕ), 0 < self.maxWidth ∧ 0 < self.maxHeight ∧ 0 < w ∧ 0 < h ∧
      (calculateDimensions binary64 self w h).height = 0 :=
  ⟨⟨by decide, by decide⟩, profilePicture_unrounded_10000_1, profilePicture_binary64_10000_1,
    profilePictureOptimizer, 10000, 1, by decide, by decide, by decide, by decide,
    by rw [profilePicture_binary64_10000_1]⟩

end ImageOptimizer

/-! ## `optimizeImage` -/

namespace ImageOptimizer

/-- `startsWith` decides the relation "is a list prefix of" on the characters. -/
theorem startsWith_iff (s p : String) : startsWith s p = true ↔ p.toList <+: s.toList := by
  simp [startsWith]

/-- Size of a file whose content is `n` zero bytes. -/
theorem size_replicate (name type : String) (t n : ℕ) :
    File.size { name := name, type := type, lastModified := t, bytes := List.replicate n 0 }
      = n := by
  simp [File.size]

/-- `optimizeImage` on a file above the size ceiling. -/
theorem optimizeImage_oversized (fl : ℚ → ℚ) (self : ImageOptimizer) (host : Host) (file : File)
    (hbig : (file.size : ℚ) > self.maxSizeMB * 1024 * 1024) :
    optimizeImage fl self host file
      = { outcome := .rejected (.fileTooLarge self.maxSizeMB), calls := [] } := by
  simp only [optimizeImage, if_pos hbig]

/-- `optimizeImage` on a file within the ceiling whose type lacks the `image/` start. -/
theorem optimizeImage_wrong_type (fl : ℚ → ℚ) (self : ImageOptimizer) (host : Host) (file : File)
    (hsize : ¬ (file.size : ℚ) > self.maxSizeMB * 1024 * 1024)
    (htype : startsWith file.type "image/" = false) :
    optimizeImage fl self host file = { outcome := .rejected .notAnImage, calls := [] } := by
  simp [optimizeImage, if_neg hsize, htype]

/-- `optimizeImage` on an SVG file within the ceiling. -/
theorem optimizeImage_svg (fl : ℚ → ℚ) (self : ImageOptimizer) (host : Host) (file : File)
    (hsize : ¬ (file.size : ℚ) > self.maxSizeMB * 1024 * 1024)
    (htype : file.type = "image/svg+xml") :
    optimizeImage fl self host file = { outcome := .resolved file, calls := [] } := by
  have hstart : startsWith "image/svg+xml" "image/" = true := by decide
  simp [optimizeImage, if_neg hsize, hstart, htype]

/-- `optimizeImage` on a file that passes validation and is not SVG: the decode and
encode pipeline. -/
theorem optimizeImage_pipeline (fl : ℚ → ℚ) (self : ImageOptimizer) (host : Host) (file : File)
    (hsize : ¬ (file.size : ℚ) > self.maxSizeMB * 1024 * 1024)
    (hstart : startsWith file.type "image/" = true) (hsvg : file.type ≠ "image/svg+xml") :
    optimizeImage fl self host file =
      match host.imageEvent file with
      | .load width height =>
        match host.toBlob file (calculateDimensions fl self width height) self.quality with
        | .blob blob =>
          { outcome := .resolved
              { name := file.name, type := "image/jpeg", lastModified := host.now,
                bytes := blob.bytes }
            calls := [.createCanvas, .getContext, .newImage, .createObjectURL file,
              .drawImage (calculateDimensions fl self width height), .toBlob self.quality,
              .dateNow, .newFile file.name] }
        | .null =>
          { outcome := .rejected .encodeFailed
            calls := [.createCanvas, .getContext, .newImage, .createObjectURL file,
              .drawImage (calculateDimensions fl self width height), .toBlob self.quality] }
        | .never =>
          { outcome := .pending
            calls := [.createCanvas, .getContext, .newImage, .createObjectURL file,
              .drawImage (calculateDimensions fl self width height), .toBlob self.quality] }
      | .error =>
        { outcome := .rejected .loadFailed
          calls := [.createCanvas, .getContext, .newImage, .createObjectURL file] }
      | .never =>
        { outcome := .pending
          calls := [.createCanvas, .getContext, .newImage, .createObjectURL file] } := by
  simp only [optimizeImage, if_neg hsize, hstart, hsvg]
  simp only [Bool.not_true, Bool.false_eq_true, if_false, List.cons_append, List.nil_append]

/-- The outcome of `optimizeImage` on a file within the size ceiling is never the
`fileTooLarge` rejection. -/
theorem outcome_ne_fileTooLarge (fl : ℚ → ℚ) (self : ImageOptimizer) (host : Host) (file : File)
    (hsize : ¬ (file.size : ℚ) > self.maxSizeMB * 1024 * 1024) (m : ℚ) :
    (optimizeImage fl self host file).outcome ≠ .rejected (.fileTooLarge m) := by
  cases hstart : startsWith file.type "image/"
  · rw [optimizeImage_wrong_type fl self host file hsize hstart]
    simp
  · by_cases hsvg : file.type = "image/svg+xml"
    · rw [optimizeImage_svg fl self host file hsize hsvg]
      simp
    · rw [optimizeImage_pipeline fl self host file hsize hstart hsvg]
      split
      · split <;> simp
      · simp
      · simp

/-- The outcome of `optimizeImage` on a file whose type starts with `image/` is never the
`notAnImage` rejection. -/
theorem outcome_ne_notAnImage (fl : ℚ → ℚ) (self : ImageOptimizer) (host : Host) (file : File)
    (hstart : startsWith file.type "image/" = true) :
    (optimizeImage fl self host file).outcome ≠ .rejected .notAnImage := by
  by_cases hsize : (file.size : ℚ) > self.maxSizeMB * 1024 * 1024
  · rw [optimizeImage_oversized fl self host file hsize]
    simp
  · by_cases hsvg : file.type = "image/svg+xml"
    · rw [optimizeImage_svg fl self host file hsize hsvg]
      simp
    · rw [optimizeImage_pipeline fl self host file hsize hstart hsvg]
      split
      · split <;> simp
      · simp
      · simp

/-- The 1000-byte PNG passes validation under the team-logo preset and is not SVG. -/
theorem smallPng_valid :
    (smallPng.size : ℚ) ≤ teamLogoOptimizer.maxSizeMB * 1048576 ∧
      "image/".toList <+: smallPng.type.toList ∧ smallPng.type ≠ "image/svg+xml" := by
  refine ⟨?_, ?_, by decide⟩
  · rw [teamLogo_maxSizeMB, smallPng, size_replicate]
    norm_num
  · rw [← startsWith_iff]; decide

/-- Run of `optimizeImage` on the 1000-byte PNG with the host whose encoder returns 2000
bytes. -/
theorem smallPng_outcome :
    (optimizeImage binary64 teamLogoOptimizer inflatingHost smallPng).outcome
      = .resolved { name := "dot.png", type := "image/jpeg", lastModified := 0,
                    bytes := List.replicate 2000 0 } := by
  have hsize : ¬ (smallPng.size : ℚ) > teamLogoOptimizer.maxSizeMB * 1024 * 1024 := by
    rw [teamLogo_maxSizeMB, smallPng, size_replicate]
    norm_num
  rw [optimizeImage_pipeline binary64 teamLogoOptimizer inflatingHost smallPng hsize
    ((startsWith_iff _ _).2 smallPng_valid.2.1) smallPng_valid.2.2]
  rfl

end ImageOptimizer

/-! ## Properties of `optimizeImage` -/

namespace ImageOptimizer

/-- C5: `optimizeImage` fails with the file-too-large error exactly when
`file.size > maxSizeMB * 1048576`; the check comes first, so an oversized file is rejected
with that error whatever its type and with no call into the host (no canvas, no image
element, no decode).  Example: a file of 6 MB under the 5 MB ceiling of the team-photo
preset. -/
theorem optimizeImage_fileTooLarge_iff (fl : ℚ → ℚ) (self : ImageOptimizer) (host : Host)
    (file : File) :
    ((∃ m, (optimizeImage fl self host file).outcome = .rejected (.fileTooLarge m)) ↔
        (file.size : ℚ) > self.maxSizeMB * 1048576) ∧
    ((file.size : ℚ) > self.maxSizeMB * 1048576 →
        optimizeImage fl self host file
          = { outcome := .rejected (.fileTooLarge self.maxSizeMB), calls := [] }) ∧
    (file.size = 6 * 1048576 →
        optimizeImage fl teamPhotoOptimizer host file
          = { outcome := .rejected (.fileTooLarge 5), calls := [] }) := by
  have hceil : ∀ o : ImageOptimizer, o.maxSizeMB * 1024 * 1024 = o.maxSizeMB * 1048576 := by
    intro o; ring
  refine ⟨⟨?_, ?_⟩, ?_, ?_⟩
  · rintro ⟨m, hm⟩
    by_contra hcon
    rw [← hceil] at hcon
    exact outcome_ne_fileTooLarge fl self host file hcon m hm
  · intro hbig
    rw [← hceil] at hbig
    exact ⟨self.maxSizeMB, by rw [optimizeImage_oversized fl self host file hbig]⟩
  · intro hbig
    rw [← hceil] at hbig
    exact optimizeImage_oversized fl self host file hbig
  · intro h6
    have hbig : (file.size : ℚ) > teamPhotoOptimizer.maxSizeMB * 1024 * 1024 := by
      rw [h6, teamPhoto_maxSizeMB]
      norm_num
    rw [optimizeImage_oversized fl teamPhotoOptimizer host file hbig, teamPhoto_maxSizeMB]

/-- C6: `optimizeImage` fails with the not-an-image error exactly when the file is within
the size ceiling and its type does not start with `image/`; the rejection happens with no
call into the host.  Example: a `text/plain` file under the team-photo preset. -/
theorem optimizeImage_notAnImage_iff (fl : ℚ → ℚ) (self : ImageOptimizer) (host : Host)
    (file : File) :
    ((optimizeImage fl self host file).outcome = .rejected .notAnImage ↔
        (file.size : ℚ) ≤ self.maxSizeMB * 1048576 ∧ ¬ "image/".toList <+: file.type.toList) ∧
    ((file.size : ℚ) ≤ self.maxSizeMB * 1048576 → ¬ "image/".toList <+: file.type.toList →
        optimizeImage fl self host file = { outcome := .rejected .notAnImage, calls := [] }) ∧
    optimizeImage fl teamPhotoOptimizer host smallText
      = { outcome := .rejected .notAnImage, calls := [] } := by
  have hceil : self.maxSizeMB * 1024 * 1024 = self.maxSizeMB * 1048576 := by ring
  have hreject : (file.size : ℚ) ≤ self.maxSizeMB * 1048576 →
      ¬ "image/".toList <+: file.type.toList →
      optimizeImage fl self host file = { outcome := .rejected .notAnImage, calls := [] } := by
    intro hle hno
    have hsize : ¬ (file.size : ℚ) > self.maxSizeMB * 1024 * 1024 := by
      rw [hceil]; exact not_lt.2 hle
    have htype : startsWith file.type "image/" = false := by
      rw [← Bool.not_eq_true, startsWith_iff]; exact hno
    exact optimizeImage_wrong_type fl self host file hsize htype
  refine ⟨⟨?_, ?_⟩, hreject, ?_⟩
  · intro hout
    constructor
    · by_contra hcon
      have hbig : (file.size : ℚ) > self.maxSizeMB * 1024 * 1024 := by
        rw [hceil]; exact not_le.1 hcon
      rw [optimizeImage_oversized fl self host file hbig] at hout
      simp at hout
    · intro hpre
      exact outcome_ne_notAnImage fl self host file ((startsWith_iff _ _).2 hpre) hout
  · rintro ⟨hle, hno⟩
    rw [hreject hle hno]
  · have hsize : ¬ (smallText.size : ℚ) > teamPhotoOptimizer.maxSizeMB * 1024 * 1024 := by
      rw [teamPhoto_maxSizeMB, smallText, size_replicate]
      norm_num
    exact optimizeImage_wrong_type fl teamPhotoOptimizer host smallText hsize (by decide)

/-- C7: on a file within the size ceiling whose type is exactly `image/svg+xml`,
`optimizeImage` resolves with the input file itself (same name, type, size, lastModified
and bytes) and makes no call into the host: nothing is decoded or encoded. -/
theorem optimizeImage_svg_passthrough (fl : ℚ → ℚ) (self : ImageOptimizer) (host : Host)
    (file : File) (hsize : (file.size : ℚ) ≤ self.maxSizeMB * 1048576)
    (htype : file.type = "image/svg+xml") :
    optimizeImage fl self host file = { outcome := .resolved file, calls := [] } := by
  have hceil : self.maxSizeMB * 1024 * 1024 = self.maxSizeMB * 1048576 := by ring
  exact optimizeImage_svg fl self host file (by rw [hceil]; exact not_lt.2 hsize) htype

/-- Witness for C7: a 1000-byte SVG under the team-logo preset (2 MB ceiling). -/
theorem optimizeImage_svg_passthrough_witness :
    ((smallSvg.size : ℚ) ≤ teamLogoOptimizer.maxSizeMB * 1048576 ∧
      smallSvg.type = "image/svg+xml") ∧
    optimizeImage binary64 teamLogoOptimizer inflatingHost smallSvg
      = { outcome := .resolved smallSvg, calls := [] } :=
  have hsize : (smallSvg.size : ℚ) ≤ teamLogoOptimizer.maxSizeMB * 1048576 := by
    rw [teamLogo_maxSizeMB, smallSvg, size_replicate]
    norm_num
  ⟨⟨hsize, rfl⟩,
    optimizeImage_svg_passthrough binary64 teamLogoOptimizer inflatingHost smallSvg hsize rfl⟩

/-- Counterexample to C8: a host encoder that returns 2000 bytes for a 1000-byte PNG makes
`optimizeImage` resolve with a file twice the size of its source, so the byte size of a
re-encoded result is not bounded by the size of the source. -/
theorem optimizeImage_can_grow :
    ((smallPng.size : ℚ) ≤ teamLogoOptimizer.maxSizeMB * 1048576 ∧
      "image/".toList <+: smallPng.type.toList ∧ smallPng.type ≠ "image/svg+xml") ∧
    (optimizeImage binary64 teamLogoOptimizer inflatingHost smallPng).outcome
      = .resolved { name := "dot.png", type := "image/jpeg", lastModified := 0,
                    bytes := List.replicate 2000 0 } ∧
    smallPng.size = 1000 ∧
    File.size { name := "dot.png", type := "image/jpeg", lastModified := 0,
                bytes := List.replicate 2000 0 } = 2000 ∧
    ¬ ∀ (fl : ℚ → ℚ) (self : ImageOptimizer) (host : Host) (file result : File),
        (file.size : ℚ) ≤ self.maxSizeMB * 1048576 → "image/".toList <+: file.type.toList →
        file.type ≠ "image/svg+xml" →
        (optimizeImage fl self host file).outcome = .resolved result →
        result.size ≤ file.size := by
  refine ⟨smallPng_valid, smallPng_outcome, size_replicate _ _ _ _, size_replicate _ _ _ _, ?_⟩
  intro hall
  have := hall binary64 teamLogoOptimizer inflatingHost smallPng _ smallPng_valid.1
    smallPng_valid.2.1 smallPng_valid.2.2 smallPng_outcome
  rw [size_replicate, smallPng, size_replicate] at this
  omega

/-- C8 as amended: when `optimizeImage` resolves for a validated non-SVG file, the image was
decoded, the encoder returned a blob for the canvas of the computed dimensions at the
configured quality, and the result carries the source name, the type `image/jpeg`, the
time of the host clock and exactly the bytes of that blob, so its size is the blob size. -/
theorem optimizeImage_resolved_reencoded (fl : ℚ → ℚ) (self : ImageOptimizer) (host : Host)
    (file result : File) (hsize : (file.size : ℚ) ≤ self.maxSizeMB * 1048576)
    (hstart : "image/".toList <+: file.type.toList) (hsvg : file.type ≠ "image/svg+xml")
    (hres : (optimizeImage fl self host file).outcome = .resolved result) :
    ∃ (width height : ℕ) (blob : Blob), host.imageEvent file = .load width height ∧
      host.toBlob file (calculateDimensions fl self width height) self.quality = .blob blob ∧
      result = { name := file.name, type := "image/jpeg", lastModified := host.now,
                 bytes := blob.bytes } ∧
      result.size = blob.size := by
  have hceil : self.maxSizeMB * 1024 * 1024 = self.maxSizeMB * 1048576 := by ring
  rw [optimizeImage_pipeline fl self host file (by rw [hceil]; exact not_lt.2 hsize)
    ((startsWith_iff _ _).2 hstart) hsvg] at hres
  split at hres
  · rename_i width height hev
    split at hres
    · rename_i blob hblob
      simp only [Outcome.resolved.injEq] at hres
      exact ⟨width, height, blob, hev, hblob, hres.symm, by rw [← hres]; rfl⟩
    · simp at hres
    · simp at hres
  · simp at hres
  · simp at hres

/-- Witness for C8 as amended: the 1000-byte PNG and the host whose encoder returns 2000
bytes. -/
theorem optimizeImage_resolved_reencoded_witness :
    ((smallPng.size : ℚ) ≤ teamLogoOptimizer.maxSizeMB * 1048576 ∧
      "image/".toList <+: smallPng.type.toList ∧ smallPng.type ≠ "image/svg+xml" ∧
      (optimizeImage binary64 teamLogoOptimizer inflatingHost smallPng).outcome
        = .resolved { name := "dot.png", type := "image/jpeg", lastModified := 0,
                      bytes := List.replicate 2000 0 }) ∧
    ∃ (width height : ℕ) (blob : Blob),
      inflatingHost.imageEvent smallPng = .load width height ∧
      inflatingHost.toBlob smallPng
        (calculateDimensions binary64 teamLogoOptimizer width height)
        teamLogoOptimizer.quality = .blob blob ∧
      ({ name := "dot.png", type := "image/jpeg", lastModified := 0,
         bytes := List.replicate 2000 0 } : File)
        = { name := smallPng.name, type := "image/jpeg", lastModified := inflatingHost.now,
            bytes := blob.bytes } ∧
      File.size { name := "dot.png", type := "image/jpeg", lastModified := 0,
                  bytes := List.replicate 2000 0 } = blob.size :=
  ⟨⟨smallPng_valid.1, smallPng_valid.2.1, smallPng_valid.2.2, smallPng_outcome⟩,
    optimizeImage_resolved_reencoded binary64 teamLogoOptimizer inflatingHost smallPng _
      smallPng_valid.1 smallPng_valid.2.1 smallPng_valid.2.2 smallPng_outcome⟩

end ImageOptimizer

/-! ## `TeamPinManager`: validation and storage -/

/-- A character of the class `[A-Za-z0-9]` is a single UTF-16 code unit. -/
theorem toNat_lt_of_isAlphanumeric {c : Char} (h : isAlphanumeric c = true) :
    c.toNat < 65536 := by
  simp only [isAlphanumeric, Bool.or_eq_true, Bool.and_eq_true, decide_eq_true_eq] at h
  have hz : ∀ d : Char, c ≤ d → c.toNat ≤ d.toNat := fun d hd => hd
  rcases h with (⟨-, h⟩ | ⟨-, h⟩) | ⟨-, h⟩
  · have := hz _ h
    have e : ('Z' : Char).toNat = 90 := rfl
    omega
  · have := hz _ h
    have e : ('z' : Char).toNat = 122 := rfl
    omega
  · have := hz _ h
    have e : ('9' : Char).toNat = 57 := rfl
    omega

/-- On characters that are single code units the UTF-16 length is the number of characters. -/
theorem sum_units_eq_length (l : List Char) (h : ∀ c ∈ l, c.toNat < 65536) :
    (l.map fun c => if c.toNat < 65536 then 1 else 2).sum = l.length := by
  induction l with
  | nil => rfl
  | cons a l ih =>
    have ha : a.toNat < 65536 := h a (List.mem_cons_self a l)
    have hl : ∀ c ∈ l, c.toNat < 65536 := fun c hc => h c (List.mem_cons_of_mem a hc)
    simp only [List.map_cons, List.sum_cons, List.length_cons, if_pos ha, ih hl]
    omega

namespace TeamPinManager

/-- The validity test is the specification's: six characters, all alphanumeric. -/
theorem isValidPin_iff (pin : String) :
    isValidPin pin = true ↔ pin.length = 6 ∧ ∀ c ∈ pin.toList, isAlphanumeric c = true := by
  have hlen : pin.length = pin.toList.length := rfl
  simp only [isValidPin, testAlphanumeric, jsLength, Bool.and_eq_true, Bool.not_eq_true',
    beq_iff_eq, List.all_eq_true, hlen]
  constructor
  · rintro ⟨⟨-, h6⟩, -, hall⟩
    rw [sum_units_eq_length _ (fun c hc => toNat_lt_of_isAlphanumeric (hall c hc))] at h6
    exact ⟨h6, hall⟩
  · rintro ⟨h6, hall⟩
    have hne : pin.toList.isEmpty = false := by
      cases hl : pin.toList with
      | nil => rw [hl] at h6; simp at h6
      | cons a l => rfl
    refine ⟨⟨hne, ?_⟩, hne, hall⟩
    rw [sum_units_eq_length _ (fun c hc => toNat_lt_of_isAlphanumeric (hall c hc))]
    exact h6

/-- C9: `savePin(pin)` returns `true` exactly when `pin` has six characters, each in
`[A-Za-z0-9]`; then the value stored under `'pfc_team_pin'` becomes `pin`, so that `getPin()`
returns it, and every other key keeps its value; when it returns `false` the browser state
is unchanged.  Examples: `'ABC123'` is saved, `'AB-123'` and `'ABC1234'` are not. -/
theorem savePin_spec (b : Browser) (pin : String) :
    ((savePin b pin).1 = true ↔
        pin.length = 6 ∧ ∀ c ∈ pin.toList, isAlphanumeric c = true) ∧
    ((savePin b pin).1 = true →
        (savePin b pin).2.localStorage "pfc_team_pin" = some pin ∧
        getPin (savePin b pin).2 = some pin ∧
        ∀ key, key ≠ "pfc_team_pin" →
          (savePin b pin).2.localStorage key = b.localStorage key) ∧
    ((savePin b pin).1 = false → (savePin b pin).2 = b) ∧
    ((savePin b "ABC123").1 = true ∧ (savePin b "AB-123").1 = false ∧
      (savePin b "ABC1234").1 = false) := by
  have hex : (savePin b "ABC123").1 = true ∧ (savePin b "AB-123").1 = false ∧
      (savePin b "ABC1234").1 = false := by
    have h1 : isValidPin "ABC123" = true := by decide
    have h2 : isValidPin "AB-123" = false := by decide
    have h3 : isValidPin "ABC1234" = false := by decide
    simp [savePin, h1, h2, h3]
  by_cases hv : isValidPin pin = true
  · have hs : savePin b pin
        = (true, { localStorage := setItem b.localStorage STORAGE_KEY pin
                   console := b.console ++ ["Team PIN saved for auto-fill"] }) := by
      simp only [savePin, if_pos hv]
    rw [hs]
    refine ⟨⟨fun _ => (isValidPin_iff pin).1 hv, fun _ => rfl⟩, fun _ => ⟨?_, ?_, ?_⟩, ?_, hex⟩
    · simp [setItem, STORAGE_KEY]
    · simp [getPin, setItem]
    · intro key hkey
      simp [setItem, STORAGE_KEY, hkey]
    · intro hf
      simp at hf
  · have hs : savePin b pin = (false, b) := by
      simp only [savePin, if_neg hv]
    rw [hs]
    refine ⟨⟨fun h => by simp at h, fun h => absurd ((isValidPin_iff pin).2 h) hv⟩,
      fun h => by simp at h, fun _ => rfl, hex⟩

end TeamPinManager

end PFC
